import Mathlib

/-!
# Verification of the persona-analyser pipeline

A shallow embedding of the repository's data-acquisition / caching /
context-assembly pipeline, with theorems settling the specification's
claims about it.

Python strings are modelled as lists of Unicode scalar values
(`List Char`), integers as `Int`/`Nat`, floats as exact decimals
(`PyDec`, mantissa and number of fractional digits, matching the decimal
text Python's `repr`/`json` use for them), and fallible operations as
`Option`/`Except`.
-/

set_option maxRecDepth 2048

namespace PersonaAnalyser

/-- A Python string: a sequence of Unicode scalar values. -/
abbrev PyStr := List Char

/-- A Python float as the exact decimal `m / 10 ^ e` its `repr` prints
(`json.dump` writes floats in that decimal form and `json.load` reads the
same value back). -/
structure PyDec where
  m : Int
  e : Nat
deriving DecidableEq, Repr

/-- Decimal digit characters of a natural number, most significant first
(the text `str(n)` produces). -/
def natDigsF : Nat → Nat → List Char
  | 0, n => [Nat.digitChar n]
  | fuel + 1, n =>
      if n < 10 then [Nat.digitChar n]
      else natDigsF fuel (n / 10) ++ [Nat.digitChar (n % 10)]

/-- Decimal digit characters of a natural number, most significant first
(the text `str(n)` produces); the fuel argument of `natDigsF` only bounds
the recursion and `n` itself always suffices. -/
def natDigs (n : Nat) : List Char := natDigsF n n

/-- `str(i)` for a Python int: optional minus sign, then digits. -/
def intChars (i : Int) : PyStr :=
  if i < 0 then '-' :: natDigs i.natAbs else natDigs i.natAbs

/-- Zero-padding to a fixed width, as `%Y`/`%m`/`%d` render. -/
def padZeros (w : Nat) (s : List Char) : List Char :=
  List.replicate (w - s.length) '0' ++ s

/-- Gregorian date of a day number (days since 1970-01-01, possibly
negative): the standard civil-from-days conversion, which agrees with
`datetime.date`. -/
def civilFromDays (z0 : Int) : Int × Int × Int :=
  let z := z0 + 719468
  let era := Int.fdiv z 146097
  let doe := z - era * 146097
  let yoe := Int.fdiv (doe - Int.fdiv doe 1460 + Int.fdiv doe 36524
    - Int.fdiv doe 146096) 365
  let y := yoe + era * 400
  let doy := doe - (365 * yoe + Int.fdiv yoe 4 - Int.fdiv yoe 100)
  let mp := Int.fdiv (5 * doy + 2) 153
  let d := doy - Int.fdiv (153 * mp + 2) 5 + 1
  let mo := mp + (if mp < 10 then 3 else -9)
  (y + (if mo ≤ 2 then 1 else 0), mo, d)

/-- `datetime.fromtimestamp(ts).strftime('%Y-%m-%d')` with the process
timezone taken as UTC: the calendar date of the (floored) second. -/
def formatDate (ts : PyDec) : PyStr :=
  let secs := Int.fdiv ts.m (10 ^ ts.e)
  let days := Int.fdiv secs 86400
  let ymd := civilFromDays days
  padZeros 4 (natDigs ymd.1.natAbs) ++ '-' :: padZeros 2 (natDigs ymd.2.1.natAbs)
    ++ '-' :: padZeros 2 (natDigs ymd.2.2.natAbs)

/-- Python `"\n".join(parts)`. -/
def joinNL : List PyStr → PyStr
  | [] => []
  | [p] => p
  | p :: q :: rest => p ++ '\n' :: joinNL (q :: rest)

/-! ## Aggregation: the statistics computed by `fetch_user_data`

`reddit-analyzer-claude.py` lines 143-154 (and the identical loops in the
groq/gemini variants):

    subreddit_activity = {}
    for item in submissions_data + comments_data:
        subreddit = item['data']['subreddit']
        subreddit_activity[subreddit] = subreddit_activity.get(subreddit, 0) + 1
    top_subreddits = dict(sorted(subreddit_activity.items(),
                                 key=lambda x: x[1], reverse=True)[:10])
-/

/-- One step of the counting loop: `d[s] = d.get(s, 0) + 1` on a Python
dict, modelled as an association list in insertion order (an existing key
keeps its position, a new key is appended). -/
def dictIncr : List (PyStr × Nat) → PyStr → List (PyStr × Nat)
  | [], s => [(s, 1)]
  | (k, v) :: rest, s =>
      if k = s then (k, v + 1) :: rest else (k, v) :: dictIncr rest s

/-- The whole counting loop over the merged stream of subreddit labels. -/
def countActivity (labels : List PyStr) : List (PyStr × Nat) :=
  labels.foldl dictIncr []

/-- Stable insertion for a descending sort: `a` (the earlier element) goes
in front of every later element whose key is not strictly greater. -/
def insertDescBy (key : α → Int) (a : α) : List α → List α
  | [] => [a]
  | b :: bs => if key a < key b then b :: insertDescBy key a bs else a :: b :: bs

/-- Stable descending sort by an integer key: extensionally Python's
`sorted(..., key=..., reverse=True)` (stable sorts by one key agree). -/
def sortDescBy (key : α → Int) : List α → List α
  | [] => []
  | a :: as => insertDescBy key a (sortDescBy key as)

/-- `dict(sorted(subreddit_activity.items(), key=lambda x: x[1],
reverse=True)[:k])`: the ranked, truncated activity table. -/
def topSubreddits (k : Nat) (labels : List PyStr) : List (PyStr × Nat) :=
  (sortDescBy (fun p => (p.2 : Int)) (countActivity labels)).take k

/-- The distinct labels of a stream in order of first appearance (the key
order of the Python counting dict). -/
def firstSeen : List PyStr → List PyStr
  | [] => []
  | x :: xs => x :: firstSeen (xs.filter (fun y => y ≠ x))
termination_by l => l.length
decreasing_by simpa using Nat.lt_succ_of_le (List.length_filter_le _ _)

/-! ## Fetched records and datasets (`reddit-analyzer-claude.py`) -/

/-- A submission record as yielded by `fetch_all_submissions` in
`reddit-analyzer-claude.py` lines 54-77 (the `'data'` payload of the
type-tagged item; the `'type'` tag is constant and carried by the record
type itself). -/
structure SubRec where
  title : PyStr
  selftext : PyStr
  subreddit : PyStr
  score : Int
  upvote_ratio : PyDec
  created_utc : PyDec
  permalink : PyStr
  num_comments : Int
  url : PyStr
  is_self : Bool
  link_flair_text : Option PyStr
  over_18 : Bool
deriving DecidableEq, Repr

/-- A comment record as yielded by `fetch_all_comments` (lines 79-99). -/
structure ComRec where
  body : PyStr
  subreddit : PyStr
  score : Int
  created_utc : PyDec
  permalink : PyStr
  is_submitter : Bool
  distinguished : Option PyStr
  parent_id : PyStr
  link_id : PyStr
deriving DecidableEq, Repr

/-- The statistics block of a dataset. -/
structure Stats where
  total_submissions : Nat
  total_comments : Nat
  top_subreddits : List (PyStr × Nat)
deriving DecidableEq, Repr

/-- The dataset dict built and cached by `fetch_user_data` (lines
156-166). `fetch_time` is stored as `datetime.now().isoformat()` and read
back with `datetime.fromisoformat`, which recovers exactly the rendered
instant, so the model keeps the timestamp itself (in seconds). -/
structure Dataset where
  submissions : List SubRec
  comments : List ComRec
  username : PyStr
  fetch_time : Int
  statistics : Stats
deriving DecidableEq, Repr

/-! ## The remote fetch and the cache policy -/

/-- A paginated remote listing: the items yielded before the listing
either ends normally (`broken = false`) or hits a network/parsing error
mid-pagination (`broken = true`). -/
structure Listing (α : Type) where
  items : List α
  broken : Bool
deriving DecidableEq, Repr

/-- The remote side visible to one `fetch_user_data` call: the existence
probe (`_ = redditor.created_utc`, line 121) and the two listings. -/
structure Remote where
  userExists : Bool
  subs : Listing SubRec
  coms : Listing ComRec
deriving DecidableEq, Repr

/-- `fetch_all_submissions` drains its listing: the generator's
`try/except` catches any mid-pagination error, prints it and `return`s,
so the caller receives the prefix already yielded whether or not the
listing broke. -/
def fetchAllSubmissions (l : Listing SubRec) : List SubRec := l.items

/-- `fetch_all_comments`, same shape as `fetchAllSubmissions`. -/
def fetchAllComments (l : Listing ComRec) : List ComRec := l.items

/-- The subreddit-label stream of `submissions_data + comments_data`. -/
def mergedLabels (subs : List SubRec) (coms : List ComRec) : List PyStr :=
  subs.map (fun s => s.subreddit) ++ coms.map (fun c => c.subreddit)

/-- The `[:10]` truncation applied to the sorted activity table. -/
def TOP_K : Nat := 10

/-- The dataset dict as assembled at lines 143-166. -/
def buildDataset (username : PyStr) (now : Int)
    (subs : List SubRec) (coms : List ComRec) : Dataset :=
  { submissions := subs
    comments := coms
    username := username
    fetch_time := now
    statistics :=
      { total_submissions := subs.length
        total_comments := coms.length
        top_subreddits := topSubreddits TOP_K (mergedLabels subs coms) } }

/-- A Python-level exception escaping a call in the model. -/
inductive PyErr
  | jsonDecodeError
deriving DecidableEq, Repr

instance {ε α : Type} [DecidableEq ε] [DecidableEq α] : DecidableEq (Except ε α) :=
  fun a b =>
    match a, b with
    | .ok x, .ok y =>
        if h : x = y then .isTrue (by rw [h]) else .isFalse (by intro hc; cases hc; exact h rfl)
    | .error x, .error y =>
        if h : x = y then .isTrue (by rw [h]) else .isFalse (by intro hc; cases hc; exact h rfl)
    | .ok _, .error _ => .isFalse (by intro hc; cases hc)
    | .error _, .ok _ => .isFalse (by intro hc; cases hc)

/-- Everything one `fetch_user_data` call did: its return value (`.error`
when an uncaught exception escaped, `.ok none` for Python `None`), what it
wrote to the cache file (if anything), and whether it touched the remote
API at all. -/
structure FetchOutcome where
  ret : Except PyErr (Option Dataset)
  cacheWrite : Option Dataset
  remoteCalled : Bool
deriving DecidableEq, Repr

/-- The `try` block of `fetch_user_data` (lines 117-180): probe the user,
drain both generators, aggregate, cache, return. An exception from the
probe is caught by the surrounding `except` and becomes `None` with no
cache write; errors inside the generators never escape them. -/
def fetchFreshData (username : PyStr) (now : Int) (remote : Remote) : FetchOutcome :=
  if remote.userExists then
    let d := buildDataset username now (fetchAllSubmissions remote.subs)
      (fetchAllComments remote.coms)
    { ret := .ok (some d), cacheWrite := some d, remoteCalled := true }
  else
    { ret := .ok none, cacheWrite := none, remoteCalled := true }

/-- Seconds per day, the unit of `timedelta.days`. -/
def SECONDS_PER_DAY : Int := 86400

/-- `(datetime.now() - datetime.fromisoformat(t)).days`: the age in
seconds, floor-divided by 86400 (`timedelta.days` rounds toward minus
infinity). -/
def cacheAgeDays (now fetchTime : Int) : Int :=
  Int.fdiv (now - fetchTime) SECONDS_PER_DAY

/-- `fetch_user_data(username, force_refresh)` of
`reddit-analyzer-claude.py` lines 101-180. `load` is what
`load_cached_data` produced: `ok none` when no cache file exists,
`ok (some c)` for a parsed entry, and `error e` when `json.load` raised —
that call sits outside any `try`, so the error propagates unchanged. -/
def fetchUserData (load : Except PyErr (Option Dataset)) (username : PyStr)
    (now : Int) (forceRefresh : Bool) (remote : Remote) : FetchOutcome :=
  if forceRefresh then
    fetchFreshData username now remote
  else
    match load with
    | .error e => { ret := .error e, cacheWrite := none, remoteCalled := false }
    | .ok none => fetchFreshData username now remote
    | .ok (some c) =>
        if cacheAgeDays now c.fetch_time < 1 then
          { ret := .ok (some c), cacheWrite := none, remoteCalled := false }
        else
          fetchFreshData username now remote

/-! ## The persona.py variant of `fetch_user_data` -/

/-- Everything one `persona.py` `fetch_user_data` call did; the payload
type is abstract because that variant caches the raw listing JSON. -/
structure PersonaOutcome (α : Type) where
  ret : Option α
  cacheWrite : Option α
  remoteCalled : Bool
deriving DecidableEq, Repr

/-- `persona.py` lines 73-92: when not forcing, any cached value is
returned as-is — there is no freshness check of any kind. Otherwise the
listing URL is fetched; a `requests` error is caught and becomes `None`
with no cache write. -/
def fetchUserDataPersona (cache : Option α) (forceRefresh : Bool)
    (remote : Except Unit α) : PersonaOutcome α :=
  match forceRefresh, cache with
  | false, some c => { ret := some c, cacheWrite := none, remoteCalled := false }
  | _, _ =>
      match remote with
      | .ok d => { ret := some d, cacheWrite := some d, remoteCalled := true }
      | .error _ => { ret := none, cacheWrite := none, remoteCalled := true }


/-! ## The digest builder (`extract_post_data`)

`reddit-analyser-complete-claude.py` lines 111-163 builds the bounded
digest from ranked excerpts; `reddit-analyser-complete-groq.py` lines
201-237 is the same dataset shape rendered by recency instead.
-/

/-- A submission as fetched by the complete-claude variant (lines 78-85);
the complete-groq fetcher (lines 93-100) yields the same field set. -/
structure FSub where
  title : PyStr
  selftext : PyStr
  subreddit : PyStr
  created_utc : PyDec
  score : Int
  num_comments : Int
deriving DecidableEq, Repr

/-- A comment as fetched by the complete variants. -/
structure FCom where
  body : PyStr
  subreddit : PyStr
  score : Int
  created_utc : PyDec
deriving DecidableEq, Repr

/-- The dataset dict those variants cache and render. -/
structure FData where
  submissions : List FSub
  comments : List FCom
  username : PyStr
  statistics : Stats
deriving DecidableEq, Repr

/-- The per-excerpt character budget (`[:500]` at lines 144 and 160). -/
def EXCERPT_BUDGET : Nat := 500

/-- `f"\nDate: {date}\nTitle: {title}\nSubreddit: r/{sub}\nScore: {score}"`
— the unconditional part appended per ranked submission. -/
def subPartHead (s : FSub) : PyStr :=
  List.flatten [['\n'],
    "Date: ".data, formatDate s.created_utc, ['\n'],
    "Title: ".data, s.title, ['\n'],
    "Subreddit: r/".data, s.subreddit, ['\n'],
    "Score: ".data, intChars s.score]

/-- The parts appended for one ranked submission: the head, then — only
when `selftext` is truthy — `f"Content: {selftext[:500]}..."`. -/
def subParts (s : FSub) : List PyStr :=
  subPartHead s ::
    (if s.selftext = [] then []
     else ["Content: ".data ++ s.selftext.take EXCERPT_BUDGET ++ "...".data])

/-- The part appended per ranked comment (lines 154-161). -/
def comPart (c : FCom) : PyStr :=
  List.flatten [['\n'],
    "Date: ".data, formatDate c.created_utc, ['\n'],
    "Subreddit: r/".data, c.subreddit, ['\n'],
    "Score: ".data, intChars c.score, ['\n'],
    "Content: ".data, c.body.take EXCERPT_BUDGET, "...".data]

/-- `f"- r/{sub}: {count} posts/comments"` per listed subreddit. -/
def statLine (p : PyStr × Nat) : PyStr :=
  List.flatten ["- r/".data, p.1, ": ".data, natDigs p.2, " posts/comments".data]

/-- `extract_post_data(data, max_items=25)` of the complete-claude
variant: the content parts in order, joined with newlines. Submission and
comment excerpts are selected by `sorted(key=score, reverse=True)[:max_items]`. -/
def extractPostData (d : FData) (maxItems : Nat) : PyStr :=
  joinNL (
    ("User Activity Analysis for u/".data ++ d.username ++ ['\n'])
    :: "OVERVIEW:".data
    :: ("Total Submissions: ".data ++ natDigs d.statistics.total_submissions)
    :: ("Total Comments: ".data ++ natDigs d.statistics.total_comments)
    :: ('\n' :: "Top Active Subreddits:".data)
    :: ((d.statistics.top_subreddits.take 5).map statLine
      ++ ('\n' :: "TOP SUBMISSIONS:".data)
        :: (((sortDescBy (fun x => x.score) d.submissions).take maxItems).flatMap subParts
          ++ ('\n' :: "TOP COMMENTS:".data)
            :: ((sortDescBy (fun x => x.score) d.comments).take maxItems).map comPart)))

/-- One submission block of the groq variant (lines 216-225): the records
are taken in dataset order and `selftext` is not truncated. -/
def subPartGroq (s : FSub) : PyStr :=
  List.flatten [
    "Date: ".data, formatDate s.created_utc, ['\n'],
    "Title: ".data, s.title, ['\n'],
    "Content: ".data, s.selftext, ['\n'],
    "Subreddit: r/".data, s.subreddit, ['\n'],
    "Score: ".data, intChars s.score, ['\n'],
    "Comments: ".data, intChars s.num_comments, ['\n'],
    "---".data, ['\n', '\n']]

/-- One comment block of the groq variant (lines 228-235). -/
def comPartGroq (c : FCom) : PyStr :=
  List.flatten [
    "Date: ".data, formatDate c.created_utc, ['\n'],
    "Subreddit: r/".data, c.subreddit, ['\n'],
    "Content: ".data, c.body, ['\n'],
    "Score: ".data, intChars c.score, ['\n'],
    "---".data, ['\n', '\n']]

/-- `extract_post_data(data)` of `reddit-analyser-complete-groq.py`
lines 201-237: header, full subreddit table, then the first 50
submissions and first 50 comments in dataset order, untruncated. -/
def extractPostDataGroq (d : FData) : PyStr :=
  List.flatten [
    "User Activity Analysis for u/".data, d.username, ['\n', '\n'],
    "OVERVIEW:".data, ['\n'],
    "Total Submissions: ".data, natDigs d.statistics.total_submissions, ['\n'],
    "Total Comments: ".data, natDigs d.statistics.total_comments, ['\n'],
    ['\n'], "Top Active Subreddits:".data, ['\n'],
    d.statistics.top_subreddits.flatMap (fun p => statLine p ++ ['\n']),
    ['\n'], "---".data, ['\n', '\n'],
    "RECENT SUBMISSIONS:".data, ['\n', '\n'],
    (d.submissions.take 50).flatMap subPartGroq,
    "RECENT COMMENTS:".data, ['\n', '\n'],
    (d.comments.take 50).flatMap comPartGroq]

/-- A dataset with a single submission carrying a given title (a test
input family for the digest bound). -/
def titleOnly (t : PyStr) : FData :=
  { submissions := [⟨t, [], [], ⟨0, 1⟩, 0, 0⟩]
    comments := []
    username := []
    statistics := ⟨1, 0, []⟩ }

/-- Two submissions in ascending-score dataset order. -/
def groqDemo : FData :=
  { submissions := [⟨"A".data, [], [], ⟨0, 1⟩, 1, 0⟩, ⟨"B".data, [], [], ⟨0, 1⟩, 5, 0⟩]
    comments := []
    username := []
    statistics := ⟨2, 0, []⟩ }

/-- The same records in descending-score order. -/
def groqDemoSorted : FData :=
  { groqDemo with submissions := groqDemo.submissions.reverse }

/-! ## Conversation history and the interactive session -/

/-- A chat-history entry (`{"timestamp", "question", "answer"}`,
`reddit-analyzer-claude.py` lines 345-349). -/
structure Turn where
  timestamp : PyStr
  question : PyStr
  answer : PyStr
deriving DecidableEq, Repr

/-- `chat_history[-3:]` (line 263): the most recent three entries, or all
of them when there are fewer — a Python slice from `max(len - 3, 0)`. -/
def contextWindow (history : List Turn) : List Turn :=
  history.drop (history.length - 3)

/-- `f"Previous Q: {q}\nPrevious A: {a}\n"` for one history entry. -/
def turnContext (t : Turn) : PyStr :=
  "Previous Q: ".data ++ t.question ++ '\n' :: "Previous A: ".data
    ++ t.answer ++ ['\n']

/-- `"\n".join(...)` over the windowed history (lines 261-264). -/
def historyContext (history : List Turn) : PyStr :=
  joinNL ((contextWindow history).map turnContext)

/-- `question.lower()`; the command words it is compared against are
ASCII. -/
def pyLower (s : PyStr) : PyStr := s.map Char.toLower

/-- How one iteration of the interactive loop ends. -/
inductive StepResult
  | endSession
  | nextQuestion (history : List Turn)
deriving DecidableEq, Repr

/-- One iteration of the `while True` loop of `interactive_analysis`
(lines 315-356): dispatch on the lowered input; `exit` breaks; `refresh`
and `history` continue (the refresh branch has its own `try/except` and
continues even on error); anything else runs the analysis inside
`try/except` — on success the turn is appended and saved, on failure an
error is printed and the history is unchanged. -/
def sessionStep (question : PyStr) (history : List Turn)
    (timestamp : PyStr) (analysis : Except PyStr PyStr) : StepResult :=
  if pyLower question = "exit".data then .endSession
  else if pyLower question = "refresh".data then .nextQuestion history
  else if pyLower question = "history".data then .nextQuestion history
  else
    match analysis with
    | .ok answer =>
        .nextQuestion (history ++
          [{ timestamp := timestamp, question := question, answer := answer }])
    | .error _ => .nextQuestion history

/-- How a whole scripted session ends. -/
inductive SessionEnd
  | initFailure
  | explicitExit
  | inputsExhausted
deriving DecidableEq, Repr

/-- One scripted loop iteration: the typed question, the timestamp an
answer would get, and how the analyse call would turn out. -/
structure SessionInput where
  question : PyStr
  timestamp : PyStr
  analysis : Except PyStr PyStr
deriving DecidableEq, Repr

/-- The interactive loop run over a script of inputs. -/
def runSession (history : List Turn) : List SessionInput → SessionEnd × List Turn
  | [] => (.inputsExhausted, history)
  | i :: rest =>
      match sessionStep i.question history i.timestamp i.analysis with
      | .endSession => (.explicitExit, history)
      | .nextQuestion h2 => runSession h2 rest

/-- `interactive_analysis(username)`: constructing the analyser can raise
(missing credentials — unrecoverable initialization failure, caught only
in `main`); otherwise the loop runs until an explicit `exit` or the end
of the script. -/
def interactiveAnalysis (init : Except PyStr Unit) (history : List Turn)
    (inputs : List SessionInput) : SessionEnd × List Turn :=
  match init with
  | .error _ => (.initFailure, history)
  | .ok _ => runSession history inputs

/-! ## The persisted JSON format

`save_to_cache`/`save_chat_history` write `json.dump(data, f, indent=2)`;
`load_cached_data`/`load_chat_history` read `json.load(f)`. The values
involved live in the JSON-serialisable fragment of Python data below; the
printer reproduces `json.dump`'s text (pretty-printed, `ensure_ascii`)
and the parser `json.load`'s acceptance on it.
-/

/-- A Python value of the JSON-serialisable fragment the pipeline stores:
`None`, `bool`, `int`, `float` (kept as its decimal text), `str`, `list`,
and `dict` with fields in insertion order. -/
inductive PyJson where
  | null
  | bool (b : Bool)
  | int (n : Int)
  | float (x : PyDec)
  | str (s : PyStr)
  | arr (xs : List PyJson)
  | obj (fields : List (PyStr × PyJson))

mutual
/-- Every float in the value has at least one fractional digit — Python
float text always does (e.g. `1700000000.0`), so every value `json.dump`
can have produced satisfies this. -/
def wfFloats : PyJson → Bool
  | .float x => decide (1 ≤ x.e)
  | .arr xs => wfFloatsArr xs
  | .obj fs => wfFloatsObj fs
  | _ => true
termination_by j => sizeOf j
decreasing_by all_goals (simp <;> omega)
def wfFloatsArr : List PyJson → Bool
  | [] => true
  | x :: xs => wfFloats x && wfFloatsArr xs
termination_by xs => sizeOf xs
decreasing_by all_goals (simp <;> omega)
def wfFloatsObj : List (PyStr × PyJson) → Bool
  | [] => true
  | (_, v) :: fs => wfFloats v && wfFloatsObj fs
termination_by fs => sizeOf fs
decreasing_by all_goals (simp <;> omega)
end

/-- Lowercase four-wide hex digits of a code point (`\uXXXX`). -/
def hex4 (n : Nat) : List Char :=
  [Nat.digitChar (n / 4096 % 16), Nat.digitChar (n / 256 % 16),
   Nat.digitChar (n / 16 % 16), Nat.digitChar (n % 16)]

/-- `json.dump`'s default (`ensure_ascii=True`) escaping of one
character: the shorthand escapes, `\uXXXX` for other control or non-ASCII
characters, and a surrogate pair for an astral code point. -/
def escChar (c : Char) : List Char :=
  if c = '"' then ['\\', '"']
  else if c = '\\' then ['\\', '\\']
  else if c = '\n' then ['\\', 'n']
  else if c = '\r' then ['\\', 'r']
  else if c = '\t' then ['\\', 't']
  else if c.toNat = 8 then ['\\', 'b']
  else if c.toNat = 12 then ['\\', 'f']
  else if c.toNat < 0x20 then '\\' :: 'u' :: hex4 c.toNat
  else if c.toNat < 0x7f then [c]
  else if c.toNat < 0x10000 then '\\' :: 'u' :: hex4 c.toNat
  else
    '\\' :: 'u' :: hex4 (0xd800 + (c.toNat - 0x10000) / 0x400)
      ++ '\\' :: 'u' :: hex4 (0xdc00 + (c.toNat - 0x10000) % 0x400)

/-- A whole string body, escaped. -/
def escStr (s : PyStr) : List Char := s.flatMap escChar

/-- The decimal text of a float: pad the digits to reach the fraction
width, then place the point (`repr(0.93)` is `0.93`, `repr(2.0)` is
`2.0`). -/
def decChars (x : PyDec) : List Char :=
  (if x.m < 0 then ['-'] else [])
    ++ (padZeros (x.e + 1) (natDigs x.m.natAbs)).take
        ((padZeros (x.e + 1) (natDigs x.m.natAbs)).length - x.e)
    ++ '.' :: (padZeros (x.e + 1) (natDigs x.m.natAbs)).drop
        ((padZeros (x.e + 1) (natDigs x.m.natAbs)).length - x.e)

/-- The `indent=2` prefix at nesting level `lvl`. -/
def indentAt (lvl : Nat) : List Char := List.replicate (2 * lvl) ' '

mutual
/-- `json.dump(value, f, indent=2)` at nesting level `lvl`: containers
break onto indented lines, `": "` after keys, `","` between entries. -/
def jdumpVal : PyJson → Nat → List Char
  | .null, _ => ['n', 'u', 'l', 'l']
  | .bool true, _ => ['t', 'r', 'u', 'e']
  | .bool false, _ => ['f', 'a', 'l', 's', 'e']
  | .int n, _ => intChars n
  | .float x, _ => decChars x
  | .str s, _ => '"' :: escStr s ++ ['"']
  | .arr [], _ => ['[', ']']
  | .arr (x :: xs), lvl =>
      '[' :: '\n' :: jdumpArrItems x xs (lvl + 1) ++ '\n' :: indentAt lvl ++ [']']
  | .obj [], _ => ['{', '}']
  | .obj (f :: fs), lvl =>
      '{' :: '\n' :: jdumpObjItems f fs (lvl + 1) ++ '\n' :: indentAt lvl ++ ['}']
termination_by j _ => sizeOf j
decreasing_by all_goals (simp <;> omega)
/-- The array entries, each on its own indented line. -/
def jdumpArrItems : PyJson → List PyJson → Nat → List Char
  | x, [], lvl => indentAt lvl ++ jdumpVal x lvl
  | x, y :: ys, lvl =>
      indentAt lvl ++ jdumpVal x lvl ++ ',' :: '\n' :: jdumpArrItems y ys lvl
termination_by x xs _ => 1 + sizeOf x + sizeOf xs
decreasing_by all_goals (simp <;> omega)
/-- The object entries, each `"key": value` on its own indented line. -/
def jdumpObjItems : PyStr × PyJson → List (PyStr × PyJson) → Nat → List Char
  | (k, v), [], lvl =>
      indentAt lvl ++ '"' :: escStr k ++ '"' :: ':' :: ' ' :: jdumpVal v lvl
  | (k, v), g :: gs, lvl =>
      indentAt lvl ++ '"' :: escStr k ++ '"' :: ':' :: ' ' :: jdumpVal v lvl
        ++ ',' :: '\n' :: jdumpObjItems g gs lvl
termination_by f fs _ => 1 + sizeOf f + sizeOf fs
decreasing_by all_goals (simp <;> omega)
end

/-- The whole file text `json.dump(value, f, indent=2)` writes. -/
def jdumps (j : PyJson) : List Char := jdumpVal j 0

/-- Whitespace as the JSON grammar knows it. -/
def isWsChar (c : Char) : Bool :=
  c == ' ' || c == '\t' || c == '\n' || c == '\r'

/-- Drop leading whitespace. -/
def wsSkip : List Char → List Char
  | [] => []
  | c :: cs => if isWsChar c then wsSkip cs else c :: cs

/-- An ASCII decimal digit. -/
def isDigitChar (c : Char) : Bool := 48 ≤ c.toNat && c.toNat ≤ 57

/-- Split off the longest leading digit run. -/
def spanDigits : List Char → List Char × List Char
  | [] => ([], [])
  | c :: cs =>
      if isDigitChar c then
        let p := spanDigits cs
        (c :: p.1, p.2)
      else ([], c :: cs)

/-- The value of a digit run. -/
def digsVal (ds : List Char) : Nat :=
  ds.foldl (fun a c => a * 10 + (c.toNat - 48)) 0

/-- The value of one hex digit, either case. -/
def hexValOf (c : Char) : Option Nat :=
  if '0' ≤ c ∧ c ≤ '9' then some (c.toNat - 48)
  else if 'a' ≤ c ∧ c ≤ 'f' then some (c.toNat - 87)
  else if 'A' ≤ c ∧ c ≤ 'F' then some (c.toNat - 55)
  else none

/-- The value of a `\uXXXX` escape's four hex digits. -/
def hex4Val (a b c d : Char) : Option Nat :=
  match hexValOf a, hexValOf b, hexValOf c, hexValOf d with
  | some va, some vb, some vc, some vd =>
      some (((va * 16 + vb) * 16 + vc) * 16 + vd)
  | _, _, _, _ => none

/-- A single-character escape after the backslash. -/
def escSingle (c : Char) : Option Char :=
  if c = '"' then some '"'
  else if c = '\\' then some '\\'
  else if c = '/' then some '/'
  else if c = 'n' then some '\n'
  else if c = 'r' then some '\r'
  else if c = 't' then some '\t'
  else if c = 'b' then some (Char.ofNat 8)
  else if c = 'f' then some (Char.ofNat 12)
  else none

/-- The body of a quoted string, after the opening quote, up to and
including the closing quote. A high-surrogate escape must be completed by
a low one (the pair denotes one astral scalar); an isolated surrogate has
no scalar value and is rejected (`json.dump` never writes one for a
well-formed string). -/
def parseStrBody : List Char → Option (PyStr × List Char)
  | [] => none
  | '"' :: rest => some ([], rest)
  | '\\' :: 'u' :: a :: b :: c :: d :: rest =>
      (match hex4Val a b c d with
      | none => none
      | some v =>
          if v < 0xd800 ∨ 0xdfff < v then
            match parseStrBody rest with
            | some (s, r) => some (Char.ofNat v :: s, r)
            | none => none
          else if v < 0xdc00 then
            match rest with
            | '\\' :: 'u' :: a2 :: b2 :: c2 :: d2 :: rest2 =>
                (match hex4Val a2 b2 c2 d2 with
                | none => none
                | some w =>
                    if 0xdc00 ≤ w ∧ w ≤ 0xdfff then
                      match parseStrBody rest2 with
                      | some (s, r) =>
                          some (Char.ofNat
                            (0x10000 + (v - 0xd800) * 0x400 + (w - 0xdc00)) :: s, r)
                      | none => none
                    else none)
            | _ => none
          else none)
  | '\\' :: e :: rest =>
      (match escSingle e with
      | none => none
      | some ch =>
          match parseStrBody rest with
          | some (s, r) => some (ch :: s, r)
          | none => none)
  | c :: rest =>
      match parseStrBody rest with
      | some (s, r) => some (c :: s, r)
      | none => none

/-- An exponent suffix folds into the decimal pair; the result is a float
either way. -/
def parseExp (m : Int) (fracDigits : Nat) (s : List Char) :
    Option (PyJson × List Char) :=
  let sp : Int × List Char :=
    match s with
    | '+' :: r => (1, r)
    | '-' :: r => (-1, r)
    | _ => (1, s)
  let ep := spanDigits sp.2
  if ep.1 = [] then none
  else
    let net : Int := sp.1 * (digsVal ep.1 : Int) - (fracDigits : Int)
    if 0 ≤ net then some (.float ⟨m * 10 ^ net.toNat, 0⟩, ep.2)
    else some (.float ⟨m, (-net).toNat⟩, ep.2)

/-- A number after its optional minus sign: digits, optional fraction,
optional exponent; `int` exactly when the text has neither fraction nor
exponent. -/
def parseNumTail (neg : Bool) (s : List Char) : Option (PyJson × List Char) :=
  let ip := spanDigits s
  if ip.1 = [] then none
  else
    let sgn : Int := if neg then -1 else 1
    match ip.2 with
    | '.' :: r =>
        let fp := spanDigits r
        if fp.1 = [] then none
        else
          match fp.2 with
          | 'e' :: r2 => parseExp (sgn * (digsVal (ip.1 ++ fp.1) : Int)) fp.1.length r2
          | 'E' :: r2 => parseExp (sgn * (digsVal (ip.1 ++ fp.1) : Int)) fp.1.length r2
          | r2 => some (.float ⟨sgn * (digsVal (ip.1 ++ fp.1) : Int), fp.1.length⟩, r2)
    | 'e' :: r2 => parseExp (sgn * (digsVal ip.1 : Int)) 0 r2
    | 'E' :: r2 => parseExp (sgn * (digsVal ip.1 : Int)) 0 r2
    | r2 => some (.int (sgn * (digsVal ip.1 : Int)), r2)

/-- A JSON number token. -/
def parseNum : List Char → Option (PyJson × List Char)
  | '-' :: r => parseNumTail true r
  | s => parseNumTail false s

mutual
/-- One JSON value; `fuel` bounds the recursion (`jloads` passes more
than the input length, which always suffices). -/
def jparse : Nat → List Char → Option (PyJson × List Char)
  | 0, _ => none
  | fuel + 1, cs =>
      match wsSkip cs with
      | 'n' :: 'u' :: 'l' :: 'l' :: r => some (.null, r)
      | 't' :: 'r' :: 'u' :: 'e' :: r => some (.bool true, r)
      | 'f' :: 'a' :: 'l' :: 's' :: 'e' :: r => some (.bool false, r)
      | '"' :: r =>
          (match parseStrBody r with
          | some (s, r2) => some (.str s, r2)
          | none => none)
      | '[' :: r =>
          (match wsSkip r with
          | ']' :: r2 => some (.arr [], r2)
          | r2 =>
              match jparseItems fuel r2 with
              | some (xs, r3) => some (.arr xs, r3)
              | none => none)
      | '{' :: r =>
          (match wsSkip r with
          | '}' :: r2 => some (.obj [], r2)
          | r2 =>
              match jparseFields fuel r2 with
              | some (fs, r3) => some (.obj fs, r3)
              | none => none)
      | c :: r => if c = '-' ∨ isDigitChar c then parseNum (c :: r) else none
      | [] => none
/-- One-or-more comma-separated array entries, through the closing `]`. -/
def jparseItems : Nat → List Char → Option (List PyJson × List Char)
  | 0, _ => none
  | fuel + 1, cs =>
      match jparse fuel cs with
      | none => none
      | some (v, r) =>
          match wsSkip r with
          | ',' :: r2 =>
              (match jparseItems fuel r2 with
              | some (vs, r3) => some (v :: vs, r3)
              | none => none)
          | ']' :: r2 => some ([v], r2)
          | _ => none
/-- One-or-more comma-separated object entries, through the closing
brace. -/
def jparseFields : Nat → List Char → Option (List (PyStr × PyJson) × List Char)
  | 0, _ => none
  | fuel + 1, cs =>
      match wsSkip cs with
      | '"' :: r =>
          (match parseStrBody r with
          | none => none
          | some (k, r1) =>
              match wsSkip r1 with
              | ':' :: r2 =>
                  (match jparse fuel r2 with
                  | none => none
                  | some (v, r3) =>
                      match wsSkip r3 with
                      | ',' :: r4 =>
                          (match jparseFields fuel r4 with
                          | some (fs, r5) => some ((k, v) :: fs, r5)
                          | none => none)
                      | '}' :: r4 => some ([(k, v)], r4)
                      | _ => none)
              | _ => none)
      | _ => none
end

/-- `json.load`: parse the whole text, allowing only trailing whitespace
after the value. -/
def jloads (s : List Char) : Option PyJson :=
  match jparse (s.length + 1) s with
  | some (j, r) => if (wsSkip r).isEmpty then some j else none
  | none => none

/-- A list whose head is no digit (or nothing at all): where a digit run
must stop. -/
def noDigitHead : List Char → Prop
  | [] => True
  | c :: _ => isDigitChar c = false

/-- A remainder that cannot extend a number token: empty, or headed by
something that is no digit and none of `.`, `e`, `E`. Everything that can
follow a rendered value — `,`, a newline, a space, `]`, the closing brace,
or the end of input — qualifies. -/
def numDelim : List Char → Prop
  | [] => True
  | c :: _ => isDigitChar c = false ∧ c ≠ '.' ∧ c ≠ 'e' ∧ c ≠ 'E'

/-- Entirely whitespace. -/
def allWs (w : List Char) : Prop := ∀ c ∈ w, isWsChar c = true

/-- What follows the first array entry in the rendered text: nothing, or
a comma, a newline and the remaining entries. -/
def arrTail : List PyJson → Nat → List Char
  | [], _ => []
  | y :: ys, lvl => ',' :: '\n' :: jdumpArrItems y ys lvl

/-- The object analogue of `arrTail`. -/
def objTail : List (PyStr × PyJson) → Nat → List Char
  | [], _ => []
  | g :: gs, lvl => ',' :: '\n' :: jdumpObjItems g gs lvl

/-! ## The cache store at the file level -/

/-- `load_cached_data(username)` (`reddit-analyzer-claude.py` lines
200-205) given the cache file's contents: a missing file is `None`; an
existing file is `json.load`ed, which raises on malformed content — the
call is not wrapped in any `try`. -/
def loadCachedData (file : Option PyStr) : Except PyErr (Option PyJson) :=
  match file with
  | none => .ok none
  | some text =>
      match jloads text with
      | some j => .ok (some j)
      | none => .error .jsonDecodeError

/-- `save_to_cache` (lines 207-210) opens the target with mode `'w'`
(truncating the old contents immediately) and streams the serialized
text; this is the file's contents once `k` characters are written — what
a reader sees if the process crashes at that point. -/
def saveToCachePartial (data : PyJson) (k : Nat) : PyStr :=
  (jdumps data).take k

/-- `datetime.fromtimestamp(t).isoformat()` for a whole-second instant
(UTC). -/
def isoText (t : Int) : PyStr :=
  let days := Int.fdiv t 86400
  let secs := (t - days * 86400).toNat
  let ymd := civilFromDays days
  padZeros 4 (natDigs ymd.1.natAbs) ++ '-' :: padZeros 2 (natDigs ymd.2.1.natAbs)
    ++ '-' :: padZeros 2 (natDigs ymd.2.2.natAbs)
    ++ 'T' :: padZeros 2 (natDigs (secs / 3600))
    ++ ':' :: padZeros 2 (natDigs (secs % 3600 / 60))
    ++ ':' :: padZeros 2 (natDigs (secs % 60))

/-- `None` or a string, as stored. -/
def optStr : Option PyStr → PyJson
  | none => .null
  | some s => .str s

/-- One submission item exactly as the cache file stores it: the
type-tagged dict yielded by `fetch_all_submissions`. -/
def subRecToJson (s : SubRec) : PyJson :=
  .obj [("type".data, .str "submission".data),
        ("data".data, .obj [
          ("title".data, .str s.title),
          ("selftext".data, .str s.selftext),
          ("subreddit".data, .str s.subreddit),
          ("score".data, .int s.score),
          ("upvote_ratio".data, .float s.upvote_ratio),
          ("created_utc".data, .float s.created_utc),
          ("permalink".data, .str s.permalink),
          ("num_comments".data, .int s.num_comments),
          ("url".data, .str s.url),
          ("is_self".data, .bool s.is_self),
          ("link_flair_text".data, optStr s.link_flair_text),
          ("over_18".data, .bool s.over_18)])]

/-- One comment item as the cache file stores it. -/
def comRecToJson (c : ComRec) : PyJson :=
  .obj [("type".data, .str "comment".data),
        ("data".data, .obj [
          ("body".data, .str c.body),
          ("subreddit".data, .str c.subreddit),
          ("score".data, .int c.score),
          ("created_utc".data, .float c.created_utc),
          ("permalink".data, .str c.permalink),
          ("is_submitter".data, .bool c.is_submitter),
          ("distinguished".data, optStr c.distinguished),
          ("parent_id".data, .str c.parent_id),
          ("link_id".data, .str c.link_id)])]

/-- The dataset dict (lines 156-166) as stored in the cache file. -/
def datasetToJson (d : Dataset) : PyJson :=
  .obj [
    ("submissions".data, .arr (d.submissions.map subRecToJson)),
    ("comments".data, .arr (d.comments.map comRecToJson)),
    ("username".data, .str d.username),
    ("fetch_time".data, .str (isoText d.fetch_time)),
    ("statistics".data, .obj [
      ("total_submissions".data, .int (d.statistics.total_submissions : Int)),
      ("total_comments".data, .int (d.statistics.total_comments : Int)),
      ("top_subreddits".data, .obj (d.statistics.top_subreddits.map
        (fun p => (p.1, PyJson.int (p.2 : Int)))))])]

/-- The full text `save_to_cache(username, data)` writes. -/
def saveToCacheText (d : Dataset) : PyStr := jdumps (datasetToJson d)


/-! ### Aggregation lemmas -/

theorem mem_firstSeen : ∀ (l : List PyStr) (a : PyStr), a ∈ firstSeen l ↔ a ∈ l
  | [], a => by simp [firstSeen]
  | x :: xs, a => by
      simp only [firstSeen]
      by_cases hax : a = x
      · subst hax; simp
      · simp only [List.mem_cons, hax, false_or]
        rw [mem_firstSeen (xs.filter (fun y => y ≠ x)) a]
        simp [hax]
termination_by l => l.length
decreasing_by simpa using Nat.lt_succ_of_le (List.length_filter_le _ _)

theorem firstSeen_nodup : ∀ l : List PyStr, (firstSeen l).Nodup
  | [] => by simp [firstSeen]
  | x :: xs => by
      simp only [firstSeen]
      refine List.nodup_cons.mpr ⟨?_, firstSeen_nodup (xs.filter (fun y => y ≠ x))⟩
      rw [mem_firstSeen]
      simp
termination_by l => l.length
decreasing_by simpa using Nat.lt_succ_of_le (List.length_filter_le _ _)

theorem firstSeen_append_singleton :
    ∀ (l : List PyStr) (x : PyStr),
      firstSeen (l ++ [x]) =
        if x ∈ l then firstSeen l else firstSeen l ++ [x]
  | [], x => by simp [firstSeen]
  | a :: l, x => by
      by_cases hxa : x = a
      · subst hxa
        rw [show ((x :: l) ++ [x]) = x :: (l ++ [x]) from rfl]
        simp only [firstSeen]
        rw [if_pos (List.mem_cons_self x l)]
        congr 1
        rw [List.filter_append]
        have h2 : List.filter (fun y => decide (y ≠ x)) [x] = [] := by simp
        rw [h2, List.append_nil]
      · rw [show ((a :: l) ++ [x]) = a :: (l ++ [x]) from rfl]
        simp only [firstSeen]
        rw [List.filter_append]
        have h1 : List.filter (fun y => decide (y ≠ a)) [x] = [x] := by simp [hxa]
        rw [h1, firstSeen_append_singleton (l.filter (fun y => y ≠ a)) x]
        by_cases hxl : x ∈ l
        · have hxlf : x ∈ l.filter (fun y => y ≠ a) := by
            simp [List.mem_filter, hxl, hxa]
          rw [if_pos hxlf, if_pos (show x ∈ a :: l by simp [hxl])]
        · have hxlf : x ∉ l.filter (fun y => y ≠ a) := by
            simp [List.mem_filter, hxl]
          rw [if_neg hxlf, if_neg (show ¬ x ∈ a :: l by simp [hxl, hxa])]
          rfl
termination_by l _ => l.length
decreasing_by simpa using Nat.lt_succ_of_le (List.length_filter_le _ _)

theorem count_filter_ne (l : List PyStr) (a k : PyStr) :
    (l.filter (fun y => y ≠ a)).count k = if k = a then 0 else l.count k := by
  by_cases hka : k = a
  · subst hka
    rw [if_pos rfl, List.count_eq_zero]
    intro hmem
    have h := List.mem_filter.mp hmem
    simp at h
  · rw [if_neg hka, List.count_filter]
    simp [hka]

/-- Incrementing a key already present bumps exactly that entry in place. -/
theorem dictIncr_map_mem (x : PyStr) (f : PyStr → Nat) :
    ∀ ks : List PyStr, ks.Nodup → x ∈ ks →
      dictIncr (ks.map (fun k => (k, f k))) x =
        ks.map (fun k => (k, if k = x then f k + 1 else f k))
  | [], _, hx => absurd hx (List.not_mem_nil x)
  | k :: ks, hnd, hx => by
      rcases List.nodup_cons.mp hnd with ⟨hknk, hndks⟩
      by_cases hkx : k = x
      · subst hkx
        have hhead : dictIncr ((k, f k) :: ks.map (fun k2 => (k2, f k2))) k
            = (k, f k + 1) :: ks.map (fun k2 => (k2, f k2)) := by
          simp [dictIncr]
        rw [List.map_cons, hhead, List.map_cons, if_pos rfl]
        congr 1
        apply List.map_congr_left
        intro a ha
        have hak : ¬ (a = k) := fun h => hknk (h ▸ ha)
        rw [if_neg hak]
      · have hxks : x ∈ ks := by
          rcases List.mem_cons.mp hx with h | h
          · exact absurd h.symm hkx
          · exact h
        simp only [List.map_cons, dictIncr, if_neg hkx]
        rw [dictIncr_map_mem x f ks hndks hxks]

/-- Incrementing an absent key appends a fresh entry with count 1. -/
theorem dictIncr_map_not_mem (x : PyStr) (f : PyStr → Nat) :
    ∀ ks : List PyStr, x ∉ ks →
      dictIncr (ks.map (fun k => (k, f k))) x =
        ks.map (fun k => (k, f k)) ++ [(x, 1)]
  | [], _ => rfl
  | k :: ks, hx => by
      have hkx : ¬ (k = x) := fun h => hx (h ▸ List.mem_cons_self k ks)
      have hxks : x ∉ ks := fun h => hx (List.mem_cons_of_mem _ h)
      simp only [List.map_cons, dictIncr, if_neg hkx, List.cons_append]
      rw [dictIncr_map_not_mem x f ks hxks]

/-- Each key of the counting dict carries its multiset count, and the keys
are exactly the distinct labels in first-seen order. -/
theorem countActivity_eq (labels : List PyStr) :
    countActivity labels = (firstSeen labels).map (fun k => (k, labels.count k)) := by
  induction labels using List.reverseRecOn with
  | nil => simp [countActivity, firstSeen]
  | append_singleton l x ih =>
      have hstep : countActivity (l ++ [x]) = dictIncr (countActivity l) x := by
        simp [countActivity, List.foldl_append]
      rw [hstep, ih, firstSeen_append_singleton]
      by_cases hxl : x ∈ l
      · rw [if_pos hxl]
        rw [dictIncr_map_mem x (fun k => l.count k) _ (firstSeen_nodup l)
          ((mem_firstSeen l x).mpr hxl)]
        apply List.map_congr_left
        intro a ha
        by_cases hax : a = x
        · subst hax
          rw [if_pos rfl]
          simp [List.count_append]
        · rw [if_neg hax]
          have hxa : ¬ (x = a) := fun h => hax h.symm
          simp [List.count_append, List.count_cons, hxa]
      · rw [if_neg hxl]
        rw [dictIncr_map_not_mem x (fun k => l.count k) _
          (fun h => hxl ((mem_firstSeen l x).mp h))]
        rw [List.map_append]
        congr 1
        · apply List.map_congr_left
          intro a ha
          have hxa : ¬ (x = a) := by
            intro h
            exact hxl (h ▸ (mem_firstSeen l a).mp ha)
          simp [List.count_append, List.count_cons, hxa]
        · have h0 : l.count x = 0 := List.count_eq_zero.mpr hxl
          simp [List.count_append, h0]

theorem insertDescBy_perm (key : α → Int) (a : α) :
    ∀ l : List α, List.Perm (insertDescBy key a l) (a :: l)
  | [] => List.Perm.refl _
  | b :: bs => by
      rw [insertDescBy]
      by_cases h : key a < key b
      · rw [if_pos h]
        exact ((insertDescBy_perm key a bs).cons b).trans (List.Perm.swap a b bs)
      · rw [if_neg h]

theorem sortDescBy_perm (key : α → Int) :
    ∀ l : List α, List.Perm (sortDescBy key l) l
  | [] => List.Perm.refl _
  | a :: as =>
      (insertDescBy_perm key a (sortDescBy key as)).trans
        ((sortDescBy_perm key as).cons a)

theorem insertDescBy_sorted (key : α → Int) (a : α) :
    ∀ l : List α, l.Pairwise (fun x y => key y ≤ key x) →
      (insertDescBy key a l).Pairwise (fun x y => key y ≤ key x)
  | [], _ => by simp [insertDescBy]
  | b :: bs, h => by
      rcases List.pairwise_cons.mp h with ⟨hb, hbs⟩
      rw [insertDescBy]
      by_cases hab : key a < key b
      · rw [if_pos hab]
        refine List.pairwise_cons.mpr ⟨?_, insertDescBy_sorted key a bs hbs⟩
        intro y hy
        rcases List.mem_cons.mp ((insertDescBy_perm key a bs).mem_iff.mp hy) with h1 | h1
        · exact h1 ▸ Int.le_of_lt hab
        · exact hb y h1
      · rw [if_neg hab]
        refine List.pairwise_cons.mpr ⟨?_, h⟩
        intro y hy
        rcases List.mem_cons.mp hy with h1 | h1
        · exact h1 ▸ Int.not_lt.mp hab
        · exact le_trans (hb y h1) (Int.not_lt.mp hab)

theorem sortDescBy_sorted (key : α → Int) :
    ∀ l : List α, (sortDescBy key l).Pairwise (fun x y => key y ≤ key x)
  | [] => List.Pairwise.nil
  | a :: as => insertDescBy_sorted key a _ (sortDescBy_sorted key as)

/-- Stable sorting preserves the relative order of equal-key elements:
restricted to any one key value, inserting into a sorted list is just
consing. -/
theorem insertDescBy_filter_eq (key : α → Int) (a : α) (c : Int) :
    ∀ l : List α, l.Pairwise (fun x y => key y ≤ key x) →
      (insertDescBy key a l).filter (fun x => key x = c) =
        (a :: l).filter (fun x => key x = c)
  | [], _ => rfl
  | b :: bs, h => by
      rcases List.pairwise_cons.mp h with ⟨hb, hbs⟩
      rw [insertDescBy]
      by_cases hab : key a < key b
      · rw [if_pos hab]
        have hIH := insertDescBy_filter_eq key a c bs hbs
        simp only [List.filter_cons, decide_eq_true_eq] at hIH ⊢
        rw [hIH]
        by_cases hbc : key b = c
        · have hac : ¬ key a = c := by intro h0; omega
          simp [hbc, hac]
        · by_cases hac : key a = c
          · simp [hbc, hac]
          · simp [hbc, hac]
      · rw [if_neg hab]

/-- Restricted to any one key value, the stable descending sort is the
identity: ties keep their original (first-appearance) order. -/
theorem sortDescBy_filter_eq (key : α → Int) (c : Int) :
    ∀ l : List α,
      (sortDescBy key l).filter (fun x => key x = c) =
        l.filter (fun x => key x = c)
  | [] => rfl
  | a :: as => by
      rw [sortDescBy, insertDescBy_filter_eq key a c _ (sortDescBy_sorted key as)]
      simp only [List.filter_cons]
      rw [sortDescBy_filter_eq key c as]

/-- A list splits into the occurrences of `x` and everything else. -/
theorem length_eq_count_add_filter_ne (x : PyStr) :
    ∀ l : List PyStr, l.length = l.count x + (l.filter (fun y => y ≠ x)).length
  | [] => rfl
  | b :: bs => by
      by_cases hbx : b = x
      · subst hbx
        rw [List.length_cons, List.count_cons_self, List.filter_cons]
        have hd : (decide (b ≠ b)) = false := by simp
        rw [hd]
        simp only [Bool.false_eq_true, if_false]
        rw [length_eq_count_add_filter_ne b bs]
        omega
      · rw [List.length_cons, List.count_cons_of_ne (fun h => hbx h.symm), List.filter_cons]
        have hd : (decide (b ≠ x)) = true := by simp [hbx]
        rw [hd, if_pos rfl, List.length_cons,
          length_eq_count_add_filter_ne x bs]
        omega

/-- The per-label counts of a stream total its length. -/
theorem sum_firstSeen_count :
    ∀ l : List PyStr, ((firstSeen l).map (fun k => l.count k)).sum = l.length
  | [] => by simp [firstSeen]
  | x :: xs => by
      simp only [firstSeen, List.map_cons, List.sum_cons]
      have htail : ((firstSeen (xs.filter (fun y => y ≠ x))).map
          (fun k => (x :: xs).count k)).sum =
          ((firstSeen (xs.filter (fun y => y ≠ x))).map
            (fun k => (xs.filter (fun y => y ≠ x)).count k)).sum := by
        apply congrArg
        apply List.map_congr_left
        intro a ha
        have hax : a ≠ x := by
          have hmem := (mem_firstSeen _ a).mp ha
          simp only [List.mem_filter, decide_eq_true_eq] at hmem
          exact hmem.2
        have h1 : (x :: xs).count a = xs.count a := by
          have hxna : ¬ (x = a) := fun h => hax h.symm
          simp [List.count_cons, hxna]
        rw [h1, count_filter_ne, if_neg hax]
      rw [htail, sum_firstSeen_count (xs.filter (fun y => y ≠ x))]
      have hxx : (x :: xs).count x = xs.count x + 1 := by simp
      have hsplit := length_eq_count_add_filter_ne x xs
      rw [hxx, List.length_cons]
      omega
termination_by l => l.length
decreasing_by simpa using Nat.lt_succ_of_le (List.length_filter_le _ _)


/-! ### Digit runs and numbers invert -/

theorem digitChar_isDigit {k : Nat} (h : k < 10) :
    isDigitChar (Nat.digitChar k) = true := by
  interval_cases k <;> decide

theorem digitChar_val {k : Nat} (h : k < 10) :
    (Nat.digitChar k).toNat - 48 = k := by
  interval_cases k <;> decide

theorem natDigsF_fuel_irrel :
    ∀ (n f₁ f₂ : Nat), n ≤ f₁ + 9 → n ≤ f₂ + 9 →
      natDigsF f₁ n = natDigsF f₂ n := by
  intro n
  induction n using Nat.strong_induction_on with
  | _ n ih =>
      intro f₁ f₂ h₁ h₂
      by_cases hn : n < 10
      · cases f₁ <;> cases f₂ <;>
          simp only [natDigsF, if_pos hn]
      · cases f₁ with
        | zero => omega
        | succ g₁ =>
            cases f₂ with
            | zero => omega
            | succ g₂ =>
                simp only [natDigsF, if_neg hn]
                rw [ih (n / 10) (by omega) g₁ g₂ (by omega) (by omega)]

theorem natDigs_eq (n : Nat) :
    natDigs n = if n < 10 then [Nat.digitChar n]
      else natDigs (n / 10) ++ [Nat.digitChar (n % 10)] := by
  by_cases hn : n < 10
  · rw [if_pos hn]
    cases n with
    | zero => rfl
    | succ m => rw [natDigs, natDigsF, if_pos hn]
  · rw [if_neg hn]
    cases n with
    | zero => omega
    | succ m =>
        rw [natDigs, natDigsF, if_neg hn]
        rw [natDigsF_fuel_irrel ((m + 1) / 10) m ((m + 1) / 10) (by omega) (by omega)]
        rfl

theorem natDigs_ne_nil (n : Nat) : natDigs n ≠ [] := by
  rw [natDigs_eq]
  split
  · simp
  · simp

theorem natDigs_all_digit (n : Nat) : ∀ c ∈ natDigs n, isDigitChar c = true := by
  induction n using Nat.strong_induction_on with
  | _ n ih =>
    rw [natDigs_eq]
    split
    · intro c hc
      rw [List.mem_singleton] at hc
      subst hc
      exact digitChar_isDigit (by omega)
    · intro c hc
      rcases List.mem_append.mp hc with h | h
      · exact ih (n / 10) (by omega) c h
      · rw [List.mem_singleton] at h
        subst h
        exact digitChar_isDigit (Nat.mod_lt _ (by omega))

theorem digsVal_append_digit (ds : List Char) (c : Char) :
    digsVal (ds ++ [c]) = digsVal ds * 10 + (c.toNat - 48) := by
  simp [digsVal, List.foldl_append]

theorem digsVal_natDigs (n : Nat) : digsVal (natDigs n) = n := by
  induction n using Nat.strong_induction_on with
  | _ n ih =>
    rw [natDigs_eq]
    split
    · rename_i h
      have hv := digitChar_val h
      simp [digsVal, hv]
    · rename_i h
      rw [digsVal_append_digit, ih (n / 10) (by omega),
        digitChar_val (Nat.mod_lt _ (by omega))]
      omega

theorem digsVal_cons_zero (l : List Char) : digsVal ('0' :: l) = digsVal l := by
  have h : (0 : Nat) * 10 + ('0'.toNat - 48) = 0 := by decide
  simp only [digsVal, List.foldl_cons, h]

theorem digsVal_zeros (k : Nat) (ds : List Char) :
    digsVal (List.replicate k '0' ++ ds) = digsVal ds := by
  induction k with
  | zero => rfl
  | succ k ih =>
      rw [List.replicate_succ, List.cons_append, digsVal_cons_zero]
      exact ih

theorem digsVal_padZeros (w : Nat) (ds : List Char) :
    digsVal (padZeros w ds) = digsVal ds := digsVal_zeros _ _

theorem padZeros_all_digit (w : Nat) (ds : List Char)
    (h : ∀ c ∈ ds, isDigitChar c = true) :
    ∀ c ∈ padZeros w ds, isDigitChar c = true := by
  intro c hc
  rcases List.mem_append.mp hc with h1 | h1
  · rw [List.eq_of_mem_replicate h1]
    decide
  · exact h c h1

theorem padZeros_length (w : Nat) (ds : List Char) :
    (padZeros w ds).length = max w ds.length := by
  simp [padZeros]
  omega

theorem spanDigits_stop {cs : List Char} (h : noDigitHead cs) :
    spanDigits cs = ([], cs) := by
  cases cs with
  | nil => rfl
  | cons c t =>
      unfold noDigitHead at h
      simp [spanDigits, h]

theorem spanDigits_run (ds : List Char) (hds : ∀ c ∈ ds, isDigitChar c = true) :
    ∀ rest : List Char, noDigitHead rest →
      spanDigits (ds ++ rest) = (ds, rest) := by
  induction ds with
  | nil =>
      intro rest hr
      simpa using spanDigits_stop hr
  | cons c t ih =>
      intro rest hr
      have hc := hds c (List.mem_cons_self c t)
      rw [List.cons_append]
      simp [spanDigits, hc, ih (fun x hx => hds x (List.mem_cons_of_mem _ hx)) rest hr]

theorem numDelim.noDigit {cs : List Char} (h : numDelim cs) : noDigitHead cs := by
  cases cs with
  | nil => trivial
  | cons c t => exact h.1

/-! ### The number token inverts -/

theorem natDigs_head (n : Nat) :
    ∃ c t, natDigs n = c :: t ∧ isDigitChar c = true := by
  rcases hh : natDigs n with _ | ⟨c, t⟩
  · exact absurd hh (natDigs_ne_nil n)
  · exact ⟨c, t, rfl, natDigs_all_digit n c (hh ▸ List.mem_cons_self c t)⟩

theorem digit_not_special {c : Char} (h : isDigitChar c = true) :
    isWsChar c = false ∧ c ≠ ']' ∧ c ≠ '}' ∧ c ≠ ',' ∧ c ≠ '-' ∧ c ≠ '.'
      ∧ c ≠ 'e' ∧ c ≠ 'E' ∧ c ≠ '"' ∧ c ≠ ':' := by
  simp only [isDigitChar, Bool.and_eq_true, decide_eq_true_eq] at h
  refine ⟨?_, ?_, ?_, ?_, ?_, ?_, ?_, ?_, ?_, ?_⟩
  · simp only [isWsChar, Bool.or_eq_false_iff, beq_eq_false_iff_ne]
    refine ⟨⟨⟨?_, ?_⟩, ?_⟩, ?_⟩ <;> (intro hc; subst hc; exact absurd h (by decide))
  all_goals (intro hc; subst hc; exact absurd h (by decide))

theorem parseNumTail_digits (neg : Bool) (ds : List Char)
    (hds : ∀ c ∈ ds, isDigitChar c = true) (hne : ds ≠ [])
    (rest : List Char) (hr : numDelim rest) :
    parseNumTail neg (ds ++ rest) =
      some (.int ((if neg then -1 else 1) * (digsVal ds : Int)), rest) := by
  unfold parseNumTail
  rw [spanDigits_run ds hds rest hr.noDigit]
  rw [if_neg hne]
  cases rest with
  | nil => rfl
  | cons c t =>
      obtain ⟨hd, hdot, he, hE⟩ := hr
      simp [hdot, he, hE]

theorem parseNum_not_neg {c : Char} (t : List Char) (h : ¬ c = '-') :
    parseNum (c :: t) = parseNumTail false (c :: t) := by
  simp [parseNum, h]

theorem parseNum_int (n : Int) (rest : List Char) (hr : numDelim rest) :
    parseNum (intChars n ++ rest) = some (.int n, rest) := by
  by_cases hn : n < 0
  · have harg : intChars n ++ rest = '-' :: (natDigs n.natAbs ++ rest) := by
      simp [intChars, hn]
    rw [harg]
    show parseNumTail true (natDigs n.natAbs ++ rest) = _
    rw [parseNumTail_digits true _ (natDigs_all_digit _) (natDigs_ne_nil _) rest hr]
    simp only [if_true, digsVal_natDigs, Option.some.injEq, Prod.mk.injEq,
      PyJson.int.injEq, and_true]
    omega
  · obtain ⟨c, t, hct, hc⟩ := natDigs_head n.natAbs
    have harg : intChars n ++ rest = c :: (t ++ rest) := by
      simp [intChars, hn, hct]
    rw [harg, parseNum_not_neg _ (digit_not_special hc).2.2.2.2.1]
    rw [show c :: (t ++ rest) = natDigs n.natAbs ++ rest by rw [hct]; rfl]
    rw [parseNumTail_digits false _ (natDigs_all_digit _) (natDigs_ne_nil _) rest hr]
    simp only [Option.some.injEq, Prod.mk.injEq, PyJson.int.injEq, and_true]
    simp only [Bool.false_eq_true, if_false, digsVal_natDigs]
    omega

theorem parseNum_dec (x : PyDec) (hx : 1 ≤ x.e) (rest : List Char)
    (hr : numDelim rest) :
    parseNum (decChars x ++ rest) = some (.float x, rest) := by
  obtain ⟨m, e⟩ := x
  simp only at hx
  have hdsdig : ∀ c ∈ padZeros (e + 1) (natDigs m.natAbs), isDigitChar c = true :=
    padZeros_all_digit _ _ (natDigs_all_digit _)
  generalize hds : padZeros (e + 1) (natDigs m.natAbs) = ds at hdsdig
  have hdsval : digsVal ds = m.natAbs := by
    rw [← hds, digsVal_padZeros, digsVal_natDigs]
  have hlen : e + 1 ≤ ds.length := by
    rw [← hds, padZeros_length]
    omega
  have htake_ne : ds.take (ds.length - e) ≠ [] := by
    intro hcon
    have h2 := congrArg List.length hcon
    rw [List.length_take] at h2
    simp only [List.length_nil] at h2
    omega
  have htake_dig : ∀ c ∈ ds.take (ds.length - e), isDigitChar c = true :=
    fun c hc => hdsdig c (List.take_subset _ _ hc)
  have hdrop_dig : ∀ c ∈ ds.drop (ds.length - e), isDigitChar c = true :=
    fun c hc => hdsdig c (List.drop_subset _ _ hc)
  have hdrop_len : (ds.drop (ds.length - e)).length = e := by
    rw [List.length_drop]
    omega
  have hdrop_ne : ds.drop (ds.length - e) ≠ [] := by
    intro hcon
    have h2 := congrArg List.length hcon
    rw [hdrop_len] at h2
    simp only [List.length_nil] at h2
    omega
  have hbody : ∀ neg : Bool,
      parseNumTail neg (ds.take (ds.length - e) ++ '.' :: ds.drop (ds.length - e) ++ rest) =
        some (.float ⟨(if neg then -1 else 1) * (m.natAbs : Int), e⟩, rest) := by
    intro neg
    unfold parseNumTail
    rw [show ds.take (ds.length - e) ++ '.' :: ds.drop (ds.length - e) ++ rest
        = ds.take (ds.length - e) ++ ('.' :: (ds.drop (ds.length - e) ++ rest)) by simp]
    rw [spanDigits_run _ htake_dig _ (by show isDigitChar '.' = false; decide)]
    rw [if_neg htake_ne]
    simp only
    rw [spanDigits_run _ hdrop_dig _ hr.noDigit]
    rw [if_neg hdrop_ne]
    have hval : digsVal (ds.take (ds.length - e) ++ ds.drop (ds.length - e)) = m.natAbs := by
      rw [List.take_append_drop, hdsval]
    cases hre : rest with
    | nil =>
        simp [hval, hdrop_len]
        rw [hdsval, Int.abs_eq_natAbs]
    | cons c t =>
        obtain ⟨hd, hdot, he, hE⟩ := hre ▸ hr
        simp [he, hE, hval, hdrop_len]
        rw [hdsval, Int.abs_eq_natAbs]
  by_cases hm : m < 0
  · have harg : decChars ⟨m, e⟩ ++ rest
        = '-' :: (ds.take (ds.length - e) ++ '.' :: ds.drop (ds.length - e) ++ rest) := by
      simp [decChars, hm, hds]
    rw [harg]
    show parseNumTail true _ = _
    rw [hbody true]
    simp only [if_true, Option.some.injEq, Prod.mk.injEq, PyJson.float.injEq,
      PyDec.mk.injEq, and_true]
    omega
  · obtain ⟨c, t, hct, hc⟩ : ∃ c t, ds.take (ds.length - e) = c :: t ∧ isDigitChar c = true := by
      rcases hh : ds.take (ds.length - e) with _ | ⟨c, t⟩
      · exact absurd hh htake_ne
      · exact ⟨c, t, rfl, htake_dig c (hh ▸ List.mem_cons_self c t)⟩
    have harg : decChars ⟨m, e⟩ ++ rest
        = c :: (t ++ ('.' :: ds.drop (ds.length - e) ++ rest)) := by
      simp [decChars, hm, hds, hct]
    rw [harg, parseNum_not_neg _ (digit_not_special hc).2.2.2.2.1]
    rw [show c :: (t ++ ('.' :: ds.drop (ds.length - e) ++ rest))
        = ds.take (ds.length - e) ++ '.' :: ds.drop (ds.length - e) ++ rest by
      rw [hct]; simp]
    rw [hbody false]
    simp only [Bool.false_eq_true, if_false, Option.some.injEq, Prod.mk.injEq,
      PyJson.float.injEq, PyDec.mk.injEq, and_true]
    omega

/-! ### Escaped strings invert -/

theorem hexValOf_digitChar {k : Nat} (h : k < 16) :
    hexValOf (Nat.digitChar k) = some k := by
  interval_cases k <;> decide

theorem hex4Val_spec {a b c d : Char} {va vb vc vd : Nat}
    (ha : hexValOf a = some va) (hb : hexValOf b = some vb)
    (hc : hexValOf c = some vc) (hd : hexValOf d = some vd) :
    hex4Val a b c d = some (((va * 16 + vb) * 16 + vc) * 16 + vd) := by
  rw [hex4Val, ha, hb, hc, hd]

theorem hex4Val_hex4 {v : Nat} (h : v < 65536) :
    hex4Val (Nat.digitChar (v / 4096 % 16)) (Nat.digitChar (v / 256 % 16))
      (Nat.digitChar (v / 16 % 16)) (Nat.digitChar (v % 16)) = some v := by
  rw [hex4Val_spec (hexValOf_digitChar (Nat.mod_lt _ (by omega)))
    (hexValOf_digitChar (Nat.mod_lt _ (by omega)))
    (hexValOf_digitChar (Nat.mod_lt _ (by omega)))
    (hexValOf_digitChar (Nat.mod_lt _ (by omega)))]
  congr 1
  omega

theorem char_valid_ranges (c : Char) :
    c.toNat < 0xd800 ∨ (0xdfff < c.toNat ∧ c.toNat < 0x110000) := by
  have h : Nat.isValidChar c.toNat := c.valid
  unfold Nat.isValidChar at h
  exact h

theorem parseStrBody_u {v : Nat} (hv : v < 65536) (hval : v < 0xd800 ∨ 0xdfff < v)
    (t : List Char) :
    parseStrBody ('\\' :: 'u' :: hex4 v ++ t) =
      match parseStrBody t with
      | some (s, r) => some (Char.ofNat v :: s, r)
      | none => none := by
  have e1 := @hex4Val_hex4 v hv
  simp only [hex4, List.cons_append, List.nil_append, parseStrBody, e1]
  rw [if_pos hval]

theorem parseStrBody_pair {u : Nat} (hu1 : 0x10000 ≤ u) (hu2 : u < 0x110000)
    (t : List Char) :
    parseStrBody ('\\' :: 'u' :: hex4 (0xd800 + (u - 0x10000) / 0x400)
        ++ ('\\' :: 'u' :: hex4 (0xdc00 + (u - 0x10000) % 0x400) ++ t)) =
      match parseStrBody t with
      | some (s, r) => some (Char.ofNat u :: s, r)
      | none => none := by
  have hq : (u - 0x10000) / 0x400 < 0x400 := by omega
  have hrm : (u - 0x10000) % 0x400 < 0x400 := Nat.mod_lt _ (by omega)
  have e1 := @hex4Val_hex4 (0xd800 + (u - 0x10000) / 0x400) (by omega)
  have e2 := @hex4Val_hex4 (0xdc00 + (u - 0x10000) % 0x400) (by omega)
  rw [show ('\\' :: 'u' :: hex4 (0xd800 + (u - 0x10000) / 0x400)
        ++ ('\\' :: 'u' :: hex4 (0xdc00 + (u - 0x10000) % 0x400) ++ t))
      = '\\' :: 'u' :: Nat.digitChar ((0xd800 + (u - 0x10000) / 0x400) / 4096 % 16)
        :: Nat.digitChar ((0xd800 + (u - 0x10000) / 0x400) / 256 % 16)
        :: Nat.digitChar ((0xd800 + (u - 0x10000) / 0x400) / 16 % 16)
        :: Nat.digitChar ((0xd800 + (u - 0x10000) / 0x400) % 16)
        :: '\\' :: 'u' :: Nat.digitChar ((0xdc00 + (u - 0x10000) % 0x400) / 4096 % 16)
        :: Nat.digitChar ((0xdc00 + (u - 0x10000) % 0x400) / 256 % 16)
        :: Nat.digitChar ((0xdc00 + (u - 0x10000) % 0x400) / 16 % 16)
        :: Nat.digitChar ((0xdc00 + (u - 0x10000) % 0x400) % 16) :: t
    by simp [hex4]]
  rw [parseStrBody, e1]
  simp only [if_neg (show ¬ (0xd800 + (u - 0x10000) / 0x400 < 0xd800
      ∨ 0xdfff < 0xd800 + (u - 0x10000) / 0x400) by omega),
    if_pos (show 0xd800 + (u - 0x10000) / 0x400 < 0xdc00 by omega)]
  rw [e2]
  simp only [if_pos (show 0xdc00 ≤ 0xdc00 + (u - 0x10000) % 0x400
      ∧ 0xdc00 + (u - 0x10000) % 0x400 ≤ 0xdfff by omega)]
  have harith : 0x10000 + ((0xd800 + (u - 0x10000) / 0x400) - 0xd800) * 0x400
      + ((0xdc00 + (u - 0x10000) % 0x400) - 0xdc00) = u := by omega
  rw [harith]

theorem parseStrBody_escChar (c : Char) (t : List Char) :
    parseStrBody (escChar c ++ t) =
      match parseStrBody t with
      | some (s, r) => some (c :: s, r)
      | none => none := by
  unfold escChar
  by_cases h1 : c = '"'
  · subst h1; rw [if_pos rfl]; rfl
  · rw [if_neg h1]
    by_cases h2 : c = '\\'
    · subst h2; rw [if_pos rfl]; rfl
    · rw [if_neg h2]
      by_cases h3 : c = '\n'
      · subst h3; rw [if_pos rfl]; rfl
      · rw [if_neg h3]
        by_cases h4 : c = '\r'
        · subst h4; rw [if_pos rfl]; rfl
        · rw [if_neg h4]
          by_cases h5 : c = '\t'
          · subst h5; rw [if_pos rfl]; rfl
          · rw [if_neg h5]
            by_cases h6 : c.toNat = 8
            · rw [if_pos h6]
              have hc : c = Char.ofNat 8 := by rw [← Char.ofNat_toNat c, h6]
              subst hc
              rfl
            · rw [if_neg h6]
              by_cases h7 : c.toNat = 12
              · rw [if_pos h7]
                have hc : c = Char.ofNat 12 := by rw [← Char.ofNat_toNat c, h7]
                subst hc
                rfl
              · rw [if_neg h7]
                by_cases h8 : c.toNat < 0x20
                · rw [if_pos h8, parseStrBody_u (by omega) (by omega) t,
                    Char.ofNat_toNat]
                · rw [if_neg h8]
                  by_cases h9 : c.toNat < 0x7f
                  · rw [if_pos h9, List.singleton_append, parseStrBody.eq_def]
                    simp [h1, h2]
                  · rw [if_neg h9]
                    by_cases h10 : c.toNat < 0x10000
                    · rw [if_pos h10,
                        parseStrBody_u h10 (by rcases char_valid_ranges c with h | h <;> omega) t,
                        Char.ofNat_toNat]
                    · rw [if_neg h10]
                      rcases char_valid_ranges c with hvr | hvr
                      · omega
                      · have hp := @parseStrBody_pair c.toNat (by omega) hvr.2 t
                        rw [Char.ofNat_toNat] at hp
                        rw [← hp]
                        congr 1

theorem parseStrBody_escStr (s : PyStr) (t : List Char) :
    parseStrBody (escStr s ++ '"' :: t) = some (s, t) := by
  induction s with
  | nil => rfl
  | cons c cs ih =>
      rw [escStr, List.flatMap_cons, List.append_assoc]
      rw [parseStrBody_escChar c (cs.flatMap escChar ++ '"' :: t)]
      rw [show cs.flatMap escChar = escStr cs from rfl, ih]



/-! ### Whitespace and the head of rendered output -/

theorem wsSkip_ws_append {w : List Char} (hw : allWs w) (t : List Char) :
    wsSkip (w ++ t) = wsSkip t := by
  induction w with
  | nil => rfl
  | cons c cs ih =>
      rw [List.cons_append, wsSkip, if_pos (hw c (List.mem_cons_self c cs))]
      exact ih (fun x hx => hw x (List.mem_cons_of_mem _ hx))

theorem wsSkip_cons_nonws {c : Char} (h : isWsChar c = false) (t : List Char) :
    wsSkip (c :: t) = c :: t := by
  rw [wsSkip]
  simp [h]

theorem allWs_indentAt (lvl : Nat) : allWs (indentAt lvl) := by
  intro c hc
  rw [List.eq_of_mem_replicate hc]
  decide

theorem allWs_nl_indent (lvl : Nat) : allWs ('\n' :: indentAt lvl) := by
  intro c hc
  rcases List.mem_cons.mp hc with h | h
  · subst h; decide
  · exact allWs_indentAt lvl c h

theorem allWs_space : allWs [' '] := by
  intro c hc
  rw [List.mem_singleton] at hc
  subst hc
  decide

theorem numDelim_cons {c : Char}
    (h : isDigitChar c = false ∧ c ≠ '.' ∧ c ≠ 'e' ∧ c ≠ 'E') (t : List Char) :
    numDelim (c :: t) := h

theorem ws_numDelim {c : Char} (h : isWsChar c = true) (t : List Char) :
    numDelim (c :: t) := by
  simp only [isWsChar, Bool.or_eq_true, beq_iff_eq] at h
  rcases h with ((h | h) | h) | h <;>
    (subst h; exact numDelim_cons (by refine ⟨?_, ?_, ?_, ?_⟩ <;> decide) t)

theorem numDelim_append_ws {w : List Char} (hw : allWs w) {t : List Char}
    (ht : numDelim t) : numDelim (w ++ t) := by
  cases w with
  | nil => exact ht
  | cons c cs => exact ws_numDelim (hw c (List.mem_cons_self c cs)) _

theorem numDelim_comma (t : List Char) : numDelim (',' :: t) :=
  numDelim_cons (by refine ⟨?_, ?_, ?_, ?_⟩ <;> decide) t

theorem numDelim_rbracket (t : List Char) : numDelim (']' :: t) :=
  numDelim_cons (by refine ⟨?_, ?_, ?_, ?_⟩ <;> decide) t

theorem numDelim_rbrace (t : List Char) : numDelim ('}' :: t) :=
  numDelim_cons (by refine ⟨?_, ?_, ?_, ?_⟩ <;> decide) t

theorem digit_ne {c : Char} (h : isDigitChar c = true) {d : Char}
    (hd : isDigitChar d = false) : c ≠ d := by
  intro heq
  subst heq
  rw [h] at hd
  cases hd

theorem ws_not_digit {c : Char} (h : isWsChar c = true) : isDigitChar c = false := by
  simp only [isWsChar, Bool.or_eq_true, beq_iff_eq] at h
  rcases h with ((h | h) | h) | h <;> (subst h; decide)

theorem digit_not_ws {c : Char} (h : isDigitChar c = true) : isWsChar c = false := by
  cases hws : isWsChar c with
  | false => rfl
  | true =>
      rw [ws_not_digit hws] at h
      cases h

theorem take_head {l : List α} {c : α} {t : List α} (h : l = c :: t) {k : Nat}
    (hk : 1 ≤ k) : l.take k = c :: t.take (k - 1) := by
  subst h
  cases k with
  | zero => omega
  | succ k => simp

theorem padZeros_head (w : Nat) {ds : List Char} (hne : ds ≠ [])
    (hdig : ∀ c ∈ ds, isDigitChar c = true) :
    ∃ c t, padZeros w ds = c :: t ∧ isDigitChar c = true := by
  unfold padZeros
  cases hrep : List.replicate (w - ds.length) '0' with
  | nil =>
      cases ds with
      | nil => exact absurd rfl hne
      | cons c t =>
          exact ⟨c, t, by rw [List.nil_append], hdig c (List.mem_cons_self c t)⟩
  | cons r rs =>
      have hr : r = '0' := List.eq_of_mem_replicate (hrep ▸ List.mem_cons_self r rs)
      subst hr
      exact ⟨'0', rs ++ ds, by rw [List.cons_append], by decide⟩

theorem intChars_head (n : Int) :
    ∃ c t, intChars n = c :: t ∧ (isDigitChar c = true ∨ c = '-') := by
  unfold intChars
  by_cases h : n < 0
  · exact ⟨'-', natDigs n.natAbs, by rw [if_pos h], Or.inr rfl⟩
  · obtain ⟨c, t, hct, hc⟩ := natDigs_head n.natAbs
    exact ⟨c, t, by rw [if_neg h, hct], Or.inl hc⟩

theorem decChars_head (x : PyDec) :
    ∃ c t, decChars x = c :: t ∧ (isDigitChar c = true ∨ c = '-') := by
  obtain ⟨m, e⟩ := x
  unfold decChars
  by_cases h : m < 0
  · rw [if_pos h]
    exact ⟨'-', _, rfl, Or.inr rfl⟩
  · rw [if_neg h]
    obtain ⟨c, t, hct, hc⟩ :=
      padZeros_head (e + 1) (natDigs_ne_nil m.natAbs) (natDigs_all_digit _)
    have hk : 1 ≤ (padZeros (e + 1) (natDigs m.natAbs)).length - e := by
      rw [padZeros_length]
      omega
    refine ⟨c, t.take ((padZeros (e + 1) (natDigs m.natAbs)).length - e - 1)
      ++ '.' :: (padZeros (e + 1) (natDigs m.natAbs)).drop
        ((padZeros (e + 1) (natDigs m.natAbs)).length - e), ?_, Or.inl hc⟩
    rw [List.nil_append, take_head hct hk, List.cons_append]

theorem jdumpVal_head (j : PyJson) (lvl : Nat) :
    ∃ c t, jdumpVal j lvl = c :: t ∧ isWsChar c = false
      ∧ c ≠ ']' ∧ c ≠ '}' ∧ c ≠ ',' := by
  cases j with
  | null => exact ⟨'n', "ull".data, by rw [jdumpVal], by decide, by decide, by decide, by decide⟩
  | bool b =>
      cases b with
      | true =>
          exact ⟨'t', "rue".data, by rw [jdumpVal], by decide, by decide, by decide, by decide⟩
      | false =>
          exact ⟨'f', "alse".data, by rw [jdumpVal], by decide, by decide, by decide, by decide⟩
  | str s =>
      exact ⟨'"', escStr s ++ ['"'], by rw [jdumpVal]; simp, by decide, by decide,
        by decide, by decide⟩
  | int n =>
      obtain ⟨c, t, hct, hc⟩ := intChars_head n
      refine ⟨c, t, by rw [jdumpVal]; exact hct, ?_, ?_, ?_, ?_⟩ <;>
        (rcases hc with h | h
         · first
             | exact digit_not_ws h
             | exact digit_ne h (by decide)
         · subst h; decide)
  | float x =>
      obtain ⟨c, t, hct, hc⟩ := decChars_head x
      refine ⟨c, t, by rw [jdumpVal]; exact hct, ?_, ?_, ?_, ?_⟩ <;>
        (rcases hc with h | h
         · first
             | exact digit_not_ws h
             | exact digit_ne h (by decide)
         · subst h; decide)
  | arr xs =>
      cases xs with
      | nil => exact ⟨'[', [']'], by rw [jdumpVal], by decide, by decide, by decide, by decide⟩
      | cons x xs =>
          exact ⟨'[', '\n' :: (jdumpArrItems x xs (lvl + 1) ++ '\n' :: indentAt lvl ++ [']']),
            by rw [jdumpVal]; simp, by decide, by decide, by decide, by decide⟩
  | obj fs =>
      cases fs with
      | nil => exact ⟨'{', ['}'], by rw [jdumpVal], by decide, by decide, by decide, by decide⟩
      | cons f fs =>
          exact ⟨'{', '\n' :: (jdumpObjItems f fs (lvl + 1) ++ '\n' :: indentAt lvl ++ ['}']),
            by rw [jdumpVal]; simp, by decide, by decide, by decide, by decide⟩

theorem jdumpVal_len_pos (j : PyJson) (lvl : Nat) : 1 ≤ (jdumpVal j lvl).length := by
  obtain ⟨c, t, hct, _⟩ := jdumpVal_head j lvl
  rw [hct]
  simp

theorem jdumpArrItems_eq (x : PyJson) (xs : List PyJson) (lvl : Nat) :
    jdumpArrItems x xs lvl = indentAt lvl ++ jdumpVal x lvl ++ arrTail xs lvl := by
  cases xs with
  | nil => rw [jdumpArrItems, arrTail, List.append_nil]
  | cons y ys => rw [jdumpArrItems, arrTail]

theorem jdumpObjItems_eq (k : PyStr) (v : PyJson) (fs : List (PyStr × PyJson))
    (lvl : Nat) :
    jdumpObjItems (k, v) fs lvl =
      indentAt lvl ++ '"' :: escStr k ++ '"' :: ':' :: ' ' :: jdumpVal v lvl
        ++ objTail fs lvl := by
  cases fs with
  | nil => rw [jdumpObjItems, objTail, List.append_nil]
  | cons g gs => rw [jdumpObjItems, objTail]

theorem jparse_ws (fuel : Nat) {w : List Char} (hw : allWs w) (s : List Char) :
    jparse fuel (w ++ s) = jparse fuel s := by
  cases fuel with
  | zero => rfl
  | succ f =>
      simp only [jparse]
      rw [wsSkip_ws_append hw]

theorem jparseItems_ws (fuel : Nat) {w : List Char} (hw : allWs w) (s : List Char) :
    jparseItems fuel (w ++ s) = jparseItems fuel s := by
  cases fuel with
  | zero => rfl
  | succ f =>
      simp only [jparseItems]
      rw [jparse_ws f hw]

theorem jparseFields_ws (fuel : Nat) {w : List Char} (hw : allWs w) (s : List Char) :
    jparseFields fuel (w ++ s) = jparseFields fuel s := by
  cases fuel with
  | zero => rfl
  | succ f =>
      simp only [jparseFields]
      rw [wsSkip_ws_append hw]



theorem wsSkip_cons_ws {c : Char} (h : isWsChar c = true) (t : List Char) :
    wsSkip (c :: t) = wsSkip t := by
  rw [wsSkip, if_pos h]

theorem jparse_cons_ws (fuel : Nat) {c : Char} (hc : isWsChar c = true)
    (s : List Char) : jparse fuel (c :: s) = jparse fuel s := by
  cases fuel with
  | zero => rfl
  | succ f =>
      simp only [jparse]
      rw [wsSkip_cons_ws hc]

theorem jparseItems_cons_ws (fuel : Nat) {c : Char} (hc : isWsChar c = true)
    (s : List Char) : jparseItems fuel (c :: s) = jparseItems fuel s := by
  cases fuel with
  | zero => rfl
  | succ f =>
      simp only [jparseItems]
      rw [jparse_cons_ws f hc]

theorem jparseFields_cons_ws (fuel : Nat) {c : Char} (hc : isWsChar c = true)
    (s : List Char) : jparseFields fuel (c :: s) = jparseFields fuel s := by
  cases fuel with
  | zero => rfl
  | succ f =>
      simp only [jparseFields]
      rw [wsSkip_cons_ws hc]

theorem jparse_num_head (fuel : Nat) {c : Char}
    (hc : isDigitChar c = true ∨ c = '-') (t : List Char) :
    jparse (fuel + 1) (c :: t) = parseNum (c :: t) := by
  have hcw : isWsChar c = false := by
    rcases hc with h | h
    · exact digit_not_ws h
    · subst h; decide
  rw [jparse, wsSkip_cons_nonws hcw]
  split
  all_goals try
    (rename_i he
     rw [List.cons.injEq] at he
     exfalso
     rcases hc with h | h
     · exact absurd he.1.symm (digit_ne h (by decide)).symm
     · subst h; exact absurd he.1 (by decide))
  · rename_i c' r he
    rw [List.cons.injEq] at he
    obtain ⟨h1, h2⟩ := he
    subst h1
    subst h2
    rw [if_pos (by tauto)]
  · rename_i he
    exact absurd he (by simp)

theorem length_arrTail_cons (y : PyJson) (ys : List PyJson) (lvl : Nat) :
    (arrTail (y :: ys) lvl).length
      = 2 + (indentAt lvl).length + (jdumpVal y lvl).length
        + (arrTail ys lvl).length := by
  rw [arrTail, jdumpArrItems_eq]
  simp [List.length_append]
  omega

theorem length_objTail_cons (k2 : PyStr) (v2 : PyJson)
    (gs : List (PyStr × PyJson)) (lvl : Nat) :
    (objTail ((k2, v2) :: gs) lvl).length
      = 6 + (indentAt lvl).length + (escStr k2).length
        + (jdumpVal v2 lvl).length + (objTail gs lvl).length := by
  rw [objTail, jdumpObjItems_eq]
  simp [List.length_append]
  omega

theorem length_jdumpVal_arr_cons (x : PyJson) (xs : List PyJson) (lvl : Nat) :
    (jdumpVal (.arr (x :: xs)) lvl).length
      = 4 + (indentAt (lvl + 1)).length + (jdumpVal x (lvl + 1)).length
        + (arrTail xs (lvl + 1)).length + (indentAt lvl).length := by
  rw [jdumpVal, jdumpArrItems_eq]
  simp [List.length_append]
  omega

theorem length_jdumpVal_obj_cons (k : PyStr) (v : PyJson)
    (fs : List (PyStr × PyJson)) (lvl : Nat) :
    (jdumpVal (.obj ((k, v) :: fs)) lvl).length
      = 8 + (indentAt (lvl + 1)).length + (escStr k).length
        + (jdumpVal v (lvl + 1)).length + (objTail fs (lvl + 1)).length
        + (indentAt lvl).length := by
  rw [jdumpVal, jdumpObjItems_eq]
  simp [List.length_append]
  omega

theorem numDelim_objTail (fs : List (PyStr × PyJson)) (lvl : Nat)
    {w : List Char} (hw : allWs w) (rest : List Char) :
    numDelim (objTail fs lvl ++ (w ++ '}' :: rest)) := by
  cases fs with
  | nil =>
      rw [objTail, List.nil_append]
      exact numDelim_append_ws hw (numDelim_rbrace rest)
  | cons g gs =>
      rw [objTail, List.cons_append]
      exact numDelim_comma _

theorem rt3 (fuel : Nat) :
    (∀ j lvl rest, wfFloats j = true → (jdumpVal j lvl).length < fuel →
      numDelim rest → jparse fuel (jdumpVal j lvl ++ rest) = some (j, rest))
    ∧ (∀ x xs lvl w rest, wfFloats x = true → wfFloatsArr xs = true →
        allWs w → (jdumpVal x lvl).length + (arrTail xs lvl).length + 1 < fuel →
        jparseItems fuel (jdumpVal x lvl ++ arrTail xs lvl ++ w ++ ']' :: rest)
          = some (x :: xs, rest))
    ∧ (∀ k v fs lvl w rest, wfFloats v = true → wfFloatsObj fs = true →
        allWs w →
        (escStr k).length + (jdumpVal v lvl).length + (objTail fs lvl).length
          + 8 < fuel →
        jparseFields fuel
            ('"' :: escStr k ++ '"' :: ':' :: ' ' :: jdumpVal v lvl
              ++ objTail fs lvl ++ w ++ '}' :: rest)
          = some ((k, v) :: fs, rest)) := by
  induction fuel with
  | zero =>
      refine ⟨?_, ?_, ?_⟩
      · intro j lvl rest _ hlen _
        omega
      · intro x xs lvl w rest _ _ _ hlen
        omega
      · intro k v fs lvl w rest _ _ _ hlen
        omega
  | succ fuel ih =>
      obtain ⟨ihv, ihi, ihf⟩ := ih
      refine ⟨?_, ?_, ?_⟩
      · intro j lvl rest hwf hlen hrest
        cases j with
        | null =>
            rw [jdumpVal]
            simp only [List.cons_append, List.nil_append]
            rw [jparse, wsSkip_cons_nonws (by decide)]
            rfl
        | bool b =>
            cases b with
            | true =>
                rw [jdumpVal]
                simp only [List.cons_append, List.nil_append]
                rw [jparse, wsSkip_cons_nonws (by decide)]
                rfl
            | false =>
                rw [jdumpVal]
                simp only [List.cons_append, List.nil_append]
                rw [jparse, wsSkip_cons_nonws (by decide)]
                rfl
        | int n =>
            obtain ⟨c, t, hct, hc⟩ := intChars_head n
            have hP := parseNum_int n rest hrest
            rw [hct, List.cons_append] at hP
            rw [jdumpVal, hct, List.cons_append,
              jparse_num_head fuel hc (t ++ rest), hP]
        | float x =>
            have hx : 1 ≤ x.e := by
              rw [wfFloats] at hwf
              exact of_decide_eq_true hwf
            obtain ⟨c, t, hct, hc⟩ := decChars_head x
            have hP := parseNum_dec x hx rest hrest
            rw [hct, List.cons_append] at hP
            rw [jdumpVal, hct, List.cons_append,
              jparse_num_head fuel hc (t ++ rest), hP]
        | str s =>
            rw [jdumpVal]
            simp only [List.cons_append, List.append_assoc,
              List.singleton_append]
            rw [jparse, wsSkip_cons_nonws (by decide)]
            show (match parseStrBody (escStr s ++ '"' :: rest) with
              | some (s', r2) => some (PyJson.str s', r2)
              | none => none) = some (PyJson.str s, rest)
            rw [parseStrBody_escStr]
        | arr xs =>
            cases xs with
            | nil =>
                rw [jdumpVal]
                simp only [List.cons_append, List.nil_append]
                rw [jparse, wsSkip_cons_nonws (by decide)]
                show (match wsSkip (']' :: rest) with
                  | ']' :: r2 => some (PyJson.arr [], r2)
                  | r2 =>
                      match jparseItems fuel r2 with
                      | some (vs, r3) => some (PyJson.arr vs, r3)
                      | none => none) = some (PyJson.arr [], rest)
                rw [wsSkip_cons_nonws (by decide)]
                rfl
            | cons x xs =>
                rw [wfFloats, wfFloatsArr, Bool.and_eq_true] at hwf
                obtain ⟨c, t, hct, hcw, hc1, hc2, hc3⟩ := jdumpVal_head x (lvl + 1)
                have h1 := jdumpVal_len_pos x (lvl + 1)
                have h2 := length_jdumpVal_arr_cons x xs lvl
                rw [jdumpVal, jdumpArrItems_eq]
                simp only [List.cons_append, List.append_assoc, List.nil_append]
                rw [jparse, wsSkip_cons_nonws (by decide)]
                show (match wsSkip ('\n' :: (indentAt (lvl + 1)
                      ++ (jdumpVal x (lvl + 1) ++ (arrTail xs (lvl + 1)
                        ++ '\n' :: (indentAt lvl ++ ']' :: rest))))) with
                  | ']' :: r2 => some (PyJson.arr [], r2)
                  | r2 =>
                      match jparseItems fuel r2 with
                      | some (vs, r3) => some (PyJson.arr vs, r3)
                      | none => none) = some (PyJson.arr (x :: xs), rest)
                rw [wsSkip_cons_ws (show isWsChar '\n' = true from by decide),
                  wsSkip_ws_append (allWs_indentAt (lvl + 1)), hct,
                  List.cons_append, wsSkip_cons_nonws hcw]
                have hI := ihi x xs (lvl + 1) ('\n' :: indentAt lvl) rest
                  hwf.1 hwf.2 (allWs_nl_indent lvl) (by omega)
                simp only [List.cons_append, List.append_assoc] at hI
                rw [hct, List.cons_append] at hI
                split
                · rename_i r2 he
                  rw [List.cons.injEq] at he
                  exact absurd he.1 hc1
                · rw [hI]
        | obj fs =>
            cases fs with
            | nil =>
                rw [jdumpVal]
                simp only [List.cons_append, List.nil_append]
                rw [jparse, wsSkip_cons_nonws (by decide)]
                show (match wsSkip ('}' :: rest) with
                  | '}' :: r2 => some (PyJson.obj [], r2)
                  | r2 =>
                      match jparseFields fuel r2 with
                      | some (fs', r3) => some (PyJson.obj fs', r3)
                      | none => none) = some (PyJson.obj [], rest)
                rw [wsSkip_cons_nonws (by decide)]
                rfl
            | cons f fs =>
                obtain ⟨k, v⟩ := f
                rw [wfFloats, wfFloatsObj, Bool.and_eq_true] at hwf
                have h1 := jdumpVal_len_pos v (lvl + 1)
                have h2 := length_jdumpVal_obj_cons k v fs lvl
                have h4 : (indentAt (lvl + 1)).length = 2 * (lvl + 1) := by
                  simp [indentAt]
                rw [jdumpVal, jdumpObjItems_eq]
                simp only [List.cons_append, List.append_assoc, List.nil_append]
                rw [jparse, wsSkip_cons_nonws (by decide)]
                show (match wsSkip ('\n' :: (indentAt (lvl + 1)
                      ++ ('"' :: (escStr k ++ '"' :: ':' :: ' '
                        :: (jdumpVal v (lvl + 1) ++ (objTail fs (lvl + 1)
                          ++ '\n' :: (indentAt lvl ++ '}' :: rest))))))) with
                  | '}' :: r2 => some (PyJson.obj [], r2)
                  | r2 =>
                      match jparseFields fuel r2 with
                      | some (fs', r3) => some (PyJson.obj fs', r3)
                      | none => none) = some (PyJson.obj ((k, v) :: fs), rest)
                rw [wsSkip_cons_ws (show isWsChar '\n' = true from by decide),
                  wsSkip_ws_append (allWs_indentAt (lvl + 1)),
                  wsSkip_cons_nonws (by decide)]
                have hF := ihf k v fs (lvl + 1) ('\n' :: indentAt lvl) rest
                  hwf.1 hwf.2 (allWs_nl_indent lvl) (by omega)
                simp only [List.cons_append, List.append_assoc] at hF
                show (match jparseFields fuel ('"' :: (escStr k
                      ++ '"' :: ':' :: ' ' :: (jdumpVal v (lvl + 1)
                        ++ (objTail fs (lvl + 1)
                          ++ '\n' :: (indentAt lvl ++ '}' :: rest))))) with
                  | some (fs', r3) => some (PyJson.obj fs', r3)
                  | none => none) = some (PyJson.obj ((k, v) :: fs), rest)
                rw [hF]
      · intro x xs lvl w rest hwfx hwfxs hw hlen
        have h1 := jdumpVal_len_pos x lvl
        cases xs with
        | nil =>
            simp only [arrTail, List.append_nil, List.append_assoc]
            rw [jparseItems]
            have hv := ihv x lvl (w ++ ']' :: rest) hwfx (by omega)
              (numDelim_append_ws hw (numDelim_rbracket rest))
            rw [hv]
            show (match wsSkip (w ++ ']' :: rest) with
              | ',' :: r2 =>
                  (match jparseItems fuel r2 with
                  | some (vs, r3) => some (x :: vs, r3)
                  | none => none)
              | ']' :: r2 => some ([x], r2)
              | _ => none) = some ([x], rest)
            rw [wsSkip_ws_append hw, wsSkip_cons_nonws (by decide)]
            rfl
        | cons y ys =>
            rw [wfFloatsArr, Bool.and_eq_true] at hwfxs
            have h2 := length_arrTail_cons y ys lvl
            have h3 := jdumpVal_len_pos y lvl
            rw [arrTail]
            simp only [List.cons_append, List.append_assoc]
            rw [jparseItems]
            have hv := ihv x lvl
              (',' :: '\n' :: (jdumpArrItems y ys lvl ++ (w ++ ']' :: rest)))
              hwfx (by omega) (numDelim_comma _)
            rw [hv]
            show (match wsSkip (',' :: '\n' :: (jdumpArrItems y ys lvl
                  ++ (w ++ ']' :: rest))) with
              | ',' :: r2 =>
                  (match jparseItems fuel r2 with
                  | some (vs, r3) => some (x :: vs, r3)
                  | none => none)
              | ']' :: r2 => some ([x], r2)
              | _ => none) = some (x :: y :: ys, rest)
            rw [wsSkip_cons_nonws (by decide)]
            show (match jparseItems fuel ('\n' :: (jdumpArrItems y ys lvl
                  ++ (w ++ ']' :: rest))) with
              | some (vs, r3) => some (x :: vs, r3)
              | none => none) = some (x :: y :: ys, rest)
            rw [jparseItems_cons_ws fuel (show isWsChar '\n' = true from by decide),
              jdumpArrItems_eq]
            simp only [List.append_assoc]
            rw [jparseItems_ws fuel (allWs_indentAt lvl)]
            have hI := ihi y ys lvl w rest hwfxs.1 hwfxs.2 hw (by omega)
            simp only [List.cons_append, List.append_assoc] at hI
            rw [hI]
      · intro k v fs lvl w rest hwfv hwffs hw hlen
        have h1 := jdumpVal_len_pos v lvl
        simp only [List.cons_append, List.append_assoc]
        rw [jparseFields, wsSkip_cons_nonws (by decide)]
        show (match parseStrBody (escStr k ++ '"' :: ':' :: ' '
              :: (jdumpVal v lvl ++ (objTail fs lvl ++ (w ++ '}' :: rest)))) with
          | none => none
          | some (k', r1) =>
              match wsSkip r1 with
              | ':' :: r2 =>
                  (match jparse fuel r2 with
                  | none => none
                  | some (v', r3) =>
                      match wsSkip r3 with
                      | ',' :: r4 =>
                          (match jparseFields fuel r4 with
                          | some (fs', r5) => some ((k', v') :: fs', r5)
                          | none => none)
                      | '}' :: r4 => some ([(k', v')], r4)
                      | _ => none)
              | _ => none) = some ((k, v) :: fs, rest)
        rw [parseStrBody_escStr]
        show (match wsSkip (':' :: ' '
              :: (jdumpVal v lvl ++ (objTail fs lvl ++ (w ++ '}' :: rest)))) with
          | ':' :: r2 =>
              (match jparse fuel r2 with
              | none => none
              | some (v', r3) =>
                  match wsSkip r3 with
                  | ',' :: r4 =>
                      (match jparseFields fuel r4 with
                      | some (fs', r5) => some ((k, v') :: fs', r5)
                      | none => none)
                  | '}' :: r4 => some ([(k, v')], r4)
                  | _ => none)
          | _ => none) = some ((k, v) :: fs, rest)
        rw [wsSkip_cons_nonws (by decide)]
        show (match jparse fuel (' '
              :: (jdumpVal v lvl ++ (objTail fs lvl ++ (w ++ '}' :: rest)))) with
          | none => none
          | some (v', r3) =>
              match wsSkip r3 with
              | ',' :: r4 =>
                  (match jparseFields fuel r4 with
                  | some (fs', r5) => some ((k, v') :: fs', r5)
                  | none => none)
              | '}' :: r4 => some ([(k, v')], r4)
              | _ => none) = some ((k, v) :: fs, rest)
        rw [jparse_cons_ws fuel (show isWsChar ' ' = true from by decide)]
        have hv := ihv v lvl (objTail fs lvl ++ (w ++ '}' :: rest)) hwfv
          (by omega) (numDelim_objTail fs lvl hw rest)
        rw [hv]
        show (match wsSkip (objTail fs lvl ++ (w ++ '}' :: rest)) with
          | ',' :: r4 =>
              (match jparseFields fuel r4 with
              | some (fs', r5) => some ((k, v) :: fs', r5)
              | none => none)
          | '}' :: r4 => some ([(k, v)], r4)
          | _ => none) = some ((k, v) :: fs, rest)
        cases fs with
        | nil =>
            rw [objTail, List.nil_append, wsSkip_ws_append hw,
              wsSkip_cons_nonws (by decide)]
            rfl
        | cons g gs =>
            obtain ⟨k2, v2⟩ := g
            rw [wfFloatsObj, Bool.and_eq_true] at hwffs
            have h2 := length_objTail_cons k2 v2 gs lvl
            have h3 := jdumpVal_len_pos v2 lvl
            rw [objTail]
            simp only [List.cons_append, List.append_assoc]
            rw [wsSkip_cons_nonws (by decide)]
            show (match jparseFields fuel ('\n' :: (jdumpObjItems (k2, v2) gs lvl
                  ++ (w ++ '}' :: rest))) with
              | some (fs', r5) => some ((k, v) :: fs', r5)
              | none => none) = some ((k, v) :: (k2, v2) :: gs, rest)
            rw [jparseFields_cons_ws fuel (show isWsChar '\n' = true from by decide),
              jdumpObjItems_eq]
            simp only [List.append_assoc]
            rw [jparseFields_ws fuel (allWs_indentAt lvl)]
            simp only [List.cons_append, List.append_assoc]
            have hF := ihf k2 v2 gs lvl w rest hwffs.1 hwffs.2 hw (by omega)
            simp only [List.cons_append, List.append_assoc] at hF
            rw [hF]

theorem jloads_jdumps (j : PyJson) (h : wfFloats j = true) :
    jloads (jdumps j) = some j := by
  have hv := (rt3 ((jdumpVal j 0).length + 1)).1 j 0 [] h (by omega) trivial
  rw [List.append_nil] at hv
  rw [show jdumps j = jdumpVal j 0 from rfl, jloads, hv]
  rfl



/-! ### Length bookkeeping for the digest builder -/

theorem joinNL_length_le : ∀ xs : List PyStr,
    (joinNL xs).length ≤ (xs.map List.length).sum + xs.length
  | [] => by simp [joinNL]
  | [p] => by simp [joinNL]
  | p :: q :: rest => by
      have ih := joinNL_length_le (q :: rest)
      simp only [joinNL, List.length_append, List.length_cons, List.map_cons,
        List.sum_cons] at ih ⊢
      omega

theorem mem_le_joinNL_length : ∀ (xs : List PyStr) (s : PyStr), s ∈ xs →
    s.length ≤ (joinNL xs).length
  | [], _, h => by cases h
  | [p], s, h => by
      rw [List.mem_singleton] at h
      subst h
      simp [joinNL]
  | p :: q :: rest, s, h => by
      rcases List.mem_cons.mp h with h1 | h2
      · subst h1
        simp [joinNL]
      · have ih := mem_le_joinNL_length (q :: rest) s h2
        simp only [joinNL, List.length_append, List.length_cons]
        omega

theorem sum_map_le_card_mul {α : Type} (l : List α) (f : α → Nat) (c : Nat)
    (h : ∀ x ∈ l, f x ≤ c) : (l.map f).sum ≤ l.length * c := by
  induction l with
  | nil => simp
  | cons a as ih =>
      simp only [List.map_cons, List.sum_cons, List.length_cons]
      have h1 := h a (List.mem_cons_self a as)
      have h2 := ih (fun x hx => h x (List.mem_cons_of_mem _ hx))
      have : (as.length + 1) * c = as.length * c + c := by ring
      omega

theorem sum_map_flatMap_le {α : Type} (l : List α) (f : α → List PyStr) (c : Nat)
    (h : ∀ x ∈ l, ((f x).map List.length).sum ≤ c) :
    ((l.flatMap f).map List.length).sum ≤ l.length * c := by
  induction l with
  | nil => simp
  | cons a as ih =>
      simp only [List.flatMap_cons, List.map_append, List.sum_append,
        List.length_cons]
      have h1 := h a (List.mem_cons_self a as)
      have h2 := ih (fun x hx => h x (List.mem_cons_of_mem _ hx))
      have : (as.length + 1) * c = as.length * c + c := by ring
      omega

theorem length_flatMap_le {α : Type} (l : List α) (f : α → List PyStr) (c : Nat)
    (h : ∀ x ∈ l, (f x).length ≤ c) :
    (l.flatMap f).length ≤ l.length * c := by
  induction l with
  | nil => simp
  | cons a as ih =>
      simp only [List.flatMap_cons, List.length_append, List.length_cons]
      have h1 := h a (List.mem_cons_self a as)
      have h2 := ih (fun x hx => h x (List.mem_cons_of_mem _ hx))
      have : (as.length + 1) * c = as.length * c + c := by ring
      omega

theorem statLine_len {B : Nat} {p : PyStr × Nat} (h1 : p.1.length ≤ B)
    (h2 : (natDigs p.2).length ≤ B) : (statLine p).length ≤ 21 + 2 * B := by
  have e1 : ("- r/".data).length = 4 := by decide
  have e2 : ((": ".data : List Char)).length = 2 := by decide
  have e3 : ((" posts/comments".data : List Char)).length = 15 := by decide
  simp only [statLine, List.flatten, List.append_nil, List.length_append,
    e1, e2, e3]
  omega

theorem subPartHead_len {B : Nat} {s : FSub} (h1 : s.title.length ≤ B)
    (h2 : s.subreddit.length ≤ B) (h3 : (intChars s.score).length ≤ B)
    (h4 : (formatDate s.created_utc).length ≤ B) :
    (subPartHead s).length ≤ 37 + 4 * B := by
  have e1 : ("Date: ".data : List Char).length = 6 := by decide
  have e2 : ("Title: ".data : List Char).length = 7 := by decide
  have e3 : ("Subreddit: r/".data : List Char).length = 13 := by decide
  have e4 : ("Score: ".data : List Char).length = 7 := by decide
  simp only [subPartHead, List.flatten, List.append_nil, List.length_append,
    List.length_singleton, e1, e2, e3, e4]
  omega

theorem subParts_sum_len {B : Nat} {s : FSub} (h1 : s.title.length ≤ B)
    (h2 : s.subreddit.length ≤ B) (h3 : (intChars s.score).length ≤ B)
    (h4 : (formatDate s.created_utc).length ≤ B) :
    ((subParts s).map List.length).sum ≤ 49 + 4 * B + EXCERPT_BUDGET := by
  have hh := subPartHead_len h1 h2 h3 h4
  have e1 : ("Content: ".data : List Char).length = 9 := by decide
  have e2 : ("...".data : List Char).length = 3 := by decide
  have ht : (s.selftext.take EXCERPT_BUDGET).length ≤ EXCERPT_BUDGET := by
    rw [List.length_take]
    omega
  rw [subParts]
  split
  · simp only [List.map_cons, List.map_nil, List.sum_cons, List.sum_nil]
    omega
  · simp only [List.map_cons, List.map_nil, List.sum_cons, List.sum_nil,
      List.length_append, e1, e2]
    omega

theorem subParts_card (s : FSub) : (subParts s).length ≤ 2 := by
  rw [subParts]
  split
  · simp
  · simp

theorem comPart_len {B : Nat} {c : FCom} (h2 : c.subreddit.length ≤ B)
    (h3 : (intChars c.score).length ≤ B)
    (h4 : (formatDate c.created_utc).length ≤ B) :
    (comPart c).length ≤ 42 + 3 * B + EXCERPT_BUDGET := by
  have e1 : ("Date: ".data : List Char).length = 6 := by decide
  have e2 : ("Subreddit: r/".data : List Char).length = 13 := by decide
  have e3 : ("Score: ".data : List Char).length = 7 := by decide
  have e4 : ("Content: ".data : List Char).length = 9 := by decide
  have e5 : ("...".data : List Char).length = 3 := by decide
  have ht : (c.body.take EXCERPT_BUDGET).length ≤ EXCERPT_BUDGET := by
    rw [List.length_take]
    omega
  simp only [comPart, List.flatten, List.append_nil, List.length_append,
    List.length_singleton, e1, e2, e3, e4, e5]
  omega

theorem mem_sorted_take {α : Type} (key : α → Int) (l : List α) (n : Nat)
    {x : α} (hx : x ∈ (sortDescBy key l).take n) : x ∈ l :=
  (sortDescBy_perm key l).mem_iff.mp (List.take_subset _ _ hx)

theorem extractPostData_len_bounded (d : FData) (maxItems B : Nat)
    (hu : d.username.length ≤ B)
    (hts : (natDigs d.statistics.total_submissions).length ≤ B)
    (htc : (natDigs d.statistics.total_comments).length ≤ B)
    (htop : ∀ p ∈ d.statistics.top_subreddits,
      p.1.length ≤ B ∧ (natDigs p.2).length ≤ B)
    (hsub : ∀ s ∈ d.submissions, s.title.length ≤ B ∧ s.subreddit.length ≤ B
      ∧ (intChars s.score).length ≤ B ∧ (formatDate s.created_utc).length ≤ B)
    (hcom : ∀ c ∈ d.comments, c.subreddit.length ≤ B
      ∧ (intChars c.score).length ≤ B ∧ (formatDate c.created_utc).length ≤ B) :
    (extractPostData d maxItems).length
      ≤ 250 + 13 * B + maxItems * (120 + 7 * B + 2 * EXCERPT_BUDGET) := by
  have hL1s : (((d.statistics.top_subreddits.take 5).map statLine).map
      List.length).sum ≤ (d.statistics.top_subreddits.take 5).length * (21 + 2 * B) := by
    rw [List.map_map]
    refine sum_map_le_card_mul _ _ _ ?_
    intro p hp
    have h := htop p (List.take_subset _ _ hp)
    exact statLine_len h.1 h.2
  have hL1c : (d.statistics.top_subreddits.take 5).length ≤ 5 :=
    List.length_take_le _ _
  have hL2s : ((((sortDescBy (fun x => x.score) d.submissions).take
        maxItems).flatMap subParts).map List.length).sum
      ≤ ((sortDescBy (fun x => x.score) d.submissions).take maxItems).length
        * (49 + 4 * B + EXCERPT_BUDGET) := by
    refine sum_map_flatMap_le _ _ _ ?_
    intro s hs
    have h := hsub s (mem_sorted_take _ _ _ hs)
    exact subParts_sum_len h.1 h.2.1 h.2.2.1 h.2.2.2
  have hL2c : (((sortDescBy (fun x => x.score) d.submissions).take
        maxItems).flatMap subParts).length
      ≤ ((sortDescBy (fun x => x.score) d.submissions).take maxItems).length * 2 :=
    length_flatMap_le _ _ _ (fun s _ => subParts_card s)
  have hL3s : ((((sortDescBy (fun x => x.score) d.comments).take
        maxItems).map comPart).map List.length).sum
      ≤ ((sortDescBy (fun x => x.score) d.comments).take maxItems).length
        * (42 + 3 * B + EXCERPT_BUDGET) := by
    rw [List.map_map]
    refine sum_map_le_card_mul _ _ _ ?_
    intro c hc
    have h := hcom c (mem_sorted_take _ _ _ hc)
    exact comPart_len h.1 h.2.1 h.2.2
  have hsubc : ((sortDescBy (fun x => x.score) d.submissions).take
      maxItems).length ≤ maxItems := List.length_take_le _ _
  have hcomc : ((sortDescBy (fun x => x.score) d.comments).take
      maxItems).length ≤ maxItems := List.length_take_le _ _
  have hJ := joinNL_length_le (
    ("User Activity Analysis for u/".data ++ d.username ++ ['\n'])
    :: "OVERVIEW:".data
    :: ("Total Submissions: ".data ++ natDigs d.statistics.total_submissions)
    :: ("Total Comments: ".data ++ natDigs d.statistics.total_comments)
    :: ('\n' :: "Top Active Subreddits:".data)
    :: ((d.statistics.top_subreddits.take 5).map statLine
      ++ ('\n' :: "TOP SUBMISSIONS:".data)
        :: (((sortDescBy (fun x => x.score) d.submissions).take maxItems).flatMap subParts
          ++ ('\n' :: "TOP COMMENTS:".data)
            :: ((sortDescBy (fun x => x.score) d.comments).take maxItems).map comPart)))
  rw [show extractPostData d maxItems = joinNL _ from rfl]
  refine le_trans hJ ?_
  have e1 : ("User Activity Analysis for u/".data : List Char).length = 29 := by decide
  have e2 : ("OVERVIEW:".data : List Char).length = 9 := by decide
  have e3 : ("Total Submissions: ".data : List Char).length = 19 := by decide
  have e4 : ("Total Comments: ".data : List Char).length = 16 := by decide
  have e5 : ("Top Active Subreddits:".data : List Char).length = 22 := by decide
  have e6 : ("TOP SUBMISSIONS:".data : List Char).length = 16 := by decide
  have e7 : ("TOP COMMENTS:".data : List Char).length = 13 := by decide
  simp only [List.map_cons, List.sum_cons, List.map_append, List.sum_append,
    List.length_cons, List.length_append, List.length_singleton,
    List.length_map, List.length_nil, e1, e2, e3, e4, e5, e6, e7]
  have hmul1 : ((sortDescBy (fun x => x.score) d.submissions).take
        maxItems).length * (49 + 4 * B + EXCERPT_BUDGET)
      ≤ maxItems * (49 + 4 * B + EXCERPT_BUDGET) :=
    Nat.mul_le_mul_right _ hsubc
  have hmul2 : ((sortDescBy (fun x => x.score) d.submissions).take
        maxItems).length * 2 ≤ maxItems * 2 :=
    Nat.mul_le_mul_right _ hsubc
  have hmul3 : ((sortDescBy (fun x => x.score) d.comments).take
        maxItems).length * (42 + 3 * B + EXCERPT_BUDGET)
      ≤ maxItems * (42 + 3 * B + EXCERPT_BUDGET) :=
    Nat.mul_le_mul_right _ hcomc
  have hmul4 : (d.statistics.top_subreddits.take 5).length * (21 + 2 * B)
      ≤ 5 * (21 + 2 * B) := Nat.mul_le_mul_right _ hL1c
  have hsplit : maxItems * (49 + 4 * B + EXCERPT_BUDGET)
      + maxItems * (42 + 3 * B + EXCERPT_BUDGET) + maxItems * 2 + maxItems
      ≤ maxItems * (120 + 7 * B + 2 * EXCERPT_BUDGET) := by
    have h : maxItems * (49 + 4 * B + EXCERPT_BUDGET)
        + maxItems * (42 + 3 * B + EXCERPT_BUDGET) + maxItems * 2 + maxItems
        = maxItems * (94 + 7 * B + 2 * EXCERPT_BUDGET) := by ring
    rw [h]
    exact Nat.mul_le_mul_left _ (by omega)
  have hflat : 5 * (21 + 2 * B) = 105 + 10 * B := by ring
  rw [hflat] at hmul4
  omega

/-! ### The absence of any absolute digest bound -/

theorem title_le_extract_len (t : PyStr) :
    t.length ≤ (extractPostData (titleOnly t) 25).length := by
  refine le_trans ?_ (mem_le_joinNL_length _
    (subPartHead ⟨t, [], [], ⟨0, 1⟩, 0, 0⟩) ?_)
  · simp only [subPartHead, List.flatten, List.append_nil, List.length_append,
      List.length_singleton]
    omega
  · simp [extractPostData, titleOnly, sortDescBy, insertDescBy, subParts]



/-! ### Invariants of the aggregated statistics -/

theorem sublist_sum_le {l₁ l₂ : List Nat} (h : List.Sublist l₁ l₂) :
    l₁.sum ≤ l₂.sum := by
  induction h with
  | slnil => simp
  | cons a h ih =>
      simp only [List.sum_cons]
      omega
  | cons₂ a h ih =>
      simp only [List.sum_cons]
      omega

theorem topSubreddits_mem_pos (k : Nat) (labels : List PyStr) :
    ∀ p ∈ topSubreddits k labels, 1 ≤ p.2 := by
  intro p hp
  have hmem : p ∈ countActivity labels :=
    (sortDescBy_perm _ _).mem_iff.mp (List.take_subset _ _ hp)
  rw [countActivity_eq] at hmem
  obtain ⟨s, hs, heq⟩ := List.mem_map.mp hmem
  have hsl : s ∈ labels := (mem_firstSeen labels s).mp hs
  have hpos : 0 < labels.count s := List.count_pos_iff.mpr hsl
  rw [← heq]
  exact hpos

theorem countActivity_sum (labels : List PyStr) :
    ((countActivity labels).map (fun p => p.2)).sum = labels.length := by
  rw [countActivity_eq, List.map_map]
  have h : ((fun p : PyStr × Nat => p.2) ∘ fun k => (k, labels.count k))
      = fun k => labels.count k := rfl
  rw [h]
  exact sum_firstSeen_count labels

theorem topSubreddits_sum_le (k : Nat) (labels : List PyStr) :
    ((topSubreddits k labels).map (fun p => p.2)).sum ≤ labels.length := by
  have hsub : List.Sublist ((topSubreddits k labels).map (fun p => p.2))
      ((sortDescBy (fun p => (p.2 : Int)) (countActivity labels)).map
        (fun p => p.2)) :=
    List.Sublist.map _ (List.take_sublist _ _)
  have hperm : List.Perm
      ((sortDescBy (fun p => (p.2 : Int)) (countActivity labels)).map
        (fun p => p.2))
      ((countActivity labels).map (fun p => p.2)) :=
    (sortDescBy_perm _ _).map _
  calc ((topSubreddits k labels).map (fun p => p.2)).sum
      ≤ _ := sublist_sum_le hsub
    _ = ((countActivity labels).map (fun p => p.2)).sum := hperm.sum_eq
    _ = labels.length := countActivity_sum labels

/-! ### Well-formed floats in the persisted dataset -/

theorem wfFloats_optStr (x : Option PyStr) : wfFloats (optStr x) = true := by
  cases x <;> simp [optStr, wfFloats]

theorem wfFloats_subRec (s : SubRec) (h1 : 1 ≤ s.upvote_ratio.e)
    (h2 : 1 ≤ s.created_utc.e) : wfFloats (subRecToJson s) = true := by
  rw [subRecToJson]
  simp [wfFloats, wfFloatsObj, wfFloatsArr, wfFloats_optStr, h1, h2]

theorem wfFloats_comRec (c : ComRec) (h2 : 1 ≤ c.created_utc.e) :
    wfFloats (comRecToJson c) = true := by
  rw [comRecToJson]
  simp [wfFloats, wfFloatsObj, wfFloatsArr, wfFloats_optStr, h2]

theorem wfFloatsArr_subRecs : ∀ l : List SubRec,
    (∀ s ∈ l, 1 ≤ s.upvote_ratio.e ∧ 1 ≤ s.created_utc.e) →
    wfFloatsArr (l.map subRecToJson) = true
  | [], _ => by rw [List.map_nil, wfFloatsArr]
  | s :: rest, h => by
      rw [List.map_cons, wfFloatsArr, Bool.and_eq_true]
      have hs := h s (List.mem_cons_self s rest)
      exact ⟨wfFloats_subRec s hs.1 hs.2,
        wfFloatsArr_subRecs rest (fun x hx => h x (List.mem_cons_of_mem _ hx))⟩

theorem wfFloatsArr_comRecs : ∀ l : List ComRec,
    (∀ c ∈ l, 1 ≤ c.created_utc.e) →
    wfFloatsArr (l.map comRecToJson) = true
  | [], _ => by rw [List.map_nil, wfFloatsArr]
  | c :: rest, h => by
      rw [List.map_cons, wfFloatsArr, Bool.and_eq_true]
      exact ⟨wfFloats_comRec c (h c (List.mem_cons_self c rest)),
        wfFloatsArr_comRecs rest (fun x hx => h x (List.mem_cons_of_mem _ hx))⟩

theorem wfFloatsObj_intMap : ∀ l : List (PyStr × Nat),
    wfFloatsObj (l.map (fun p => (p.1, PyJson.int (p.2 : Int)))) = true
  | [] => by rw [List.map_nil, wfFloatsObj]
  | p :: rest => by
      rw [List.map_cons, wfFloatsObj, Bool.and_eq_true]
      exact ⟨by simp [wfFloats], wfFloatsObj_intMap rest⟩

theorem wfFloats_datasetToJson (d : Dataset)
    (hs : ∀ s ∈ d.submissions, 1 ≤ s.upvote_ratio.e ∧ 1 ≤ s.created_utc.e)
    (hc : ∀ c ∈ d.comments, 1 ≤ c.created_utc.e) :
    wfFloats (datasetToJson d) = true := by
  rw [datasetToJson]
  simp only [wfFloats, wfFloatsObj, wfFloatsArr, Bool.and_eq_true]
  refine ⟨wfFloatsArr_subRecs _ hs, wfFloatsArr_comRecs _ hc, ?_⟩
  simp [wfFloats, wfFloatsObj, wfFloatsObj_intMap]



/-! ### Session-loop lemmas -/

theorem runSession_no_exit :
    ∀ (inputs : List SessionInput) (history : List Turn),
      (∀ i ∈ inputs, pyLower i.question ≠ "exit".data) →
      (runSession history inputs).1 = .inputsExhausted
  | [], _, _ => rfl
  | i :: rest, history, h => by
      have hne := h i (List.mem_cons_self i rest)
      have hrest := fun x hx => h x (List.mem_cons_of_mem _ hx)
      rw [runSession]
      rcases hstep : sessionStep i.question history i.timestamp i.analysis
        with _ | h2
      · simp only [sessionStep] at hstep
        rw [if_neg hne] at hstep
        by_cases hr : pyLower i.question = "refresh".data
        · rw [if_pos hr] at hstep
          cases hstep
        · rw [if_neg hr] at hstep
          by_cases hh : pyLower i.question = "history".data
          · rw [if_pos hh] at hstep
            cases hstep
          · rw [if_neg hh] at hstep
            cases hana : i.analysis with
            | ok a =>
                rw [hana] at hstep
                cases hstep
            | error e =>
                rw [hana] at hstep
                cases hstep
      · exact runSession_no_exit rest h2 hrest

theorem runSession_ends :
    ∀ (inputs : List SessionInput) (history : List Turn),
      (runSession history inputs).1 = .explicitExit
      ∨ (runSession history inputs).1 = .inputsExhausted
  | [], _ => Or.inr rfl
  | i :: rest, history => by
      rw [runSession]
      rcases hstep : sessionStep i.question history i.timestamp i.analysis
        with _ | h2
      · exact Or.inl rfl
      · exact runSession_ends rest h2

/-! ### Where a cache write can come from -/

theorem cacheWrite_from_build (load : Except PyErr (Option Dataset))
    (username : PyStr) (now : Int) (force : Bool) (remote : Remote)
    (d : Dataset)
    (hw : (fetchUserData load username now force remote).cacheWrite = some d) :
    d = buildDataset username now remote.subs.items remote.coms.items := by
  have hfresh : ∀ (h : (fetchFreshData username now remote).cacheWrite = some d),
      d = buildDataset username now remote.subs.items remote.coms.items := by
    intro h
    simp only [fetchFreshData] at h
    cases hex : remote.userExists with
    | true =>
        rw [hex, if_pos rfl] at h
        simp only [Option.some.injEq] at h
        rw [← h, fetchAllSubmissions, fetchAllComments]
    | false =>
        rw [hex] at h
        simp at h
  simp only [fetchUserData] at hw
  cases force with
  | true =>
      rw [if_pos rfl] at hw
      exact hfresh hw
  | false =>
      rw [if_neg (by simp)] at hw
      cases load with
      | error e => simp at hw
      | ok o =>
          cases o with
          | none => exact hfresh hw
          | some c =>
              by_cases hage : cacheAgeDays now c.fetch_time < 1
              · simp [hage] at hw
              · simp [hage] at hw
                exact hfresh hw

theorem perm_count_eq : ∀ {l₁ l₂ : List PyStr}, l₁.Perm l₂ → ∀ s : PyStr,
    List.count s l₁ = List.count s l₂ := by
  intro l₁ l₂ h
  induction h with
  | nil => intro s; rfl
  | cons a h ih =>
      intro s
      simp only [List.count_cons, ih s]
  | swap a b l =>
      intro s
      simp only [List.count_cons]
      omega
  | trans h1 h2 ih1 ih2 =>
      intro s
      rw [ih1 s, ih2 s]

theorem mergedLabels_length (subs : List SubRec) (coms : List ComRec) :
    (mergedLabels subs coms).length = subs.length + coms.length := by
  simp [mergedLabels]

/-! ## The ten claims -/

/-- Claim C1 (amended): in `reddit-analyzer-claude.py`, with
`force_refresh` false a cached dataset younger than 24 hours is returned
unchanged — no remote call, no cache write — and a cached dataset aged 24
hours or more is never reused: the call proceeds exactly as a full
refetch. The claim as stated also covers `persona.py`, where it fails
(see the counterexample): that variant returns any cached value with no
freshness check at all. -/
theorem claim_C1_cache_freshness (username : PyStr) (now : Int)
    (remote : Remote) (c : Dataset) :
    (cacheAgeDays now c.fetch_time < 1 →
      fetchUserData (.ok (some c)) username now false remote
        = { ret := .ok (some c), cacheWrite := none, remoteCalled := false })
    ∧ (1 ≤ cacheAgeDays now c.fetch_time →
      fetchUserData (.ok (some c)) username now false remote
        = fetchFreshData username now remote) := by
  constructor
  · intro h
    simp [fetchUserData, h]
  · intro h
    have h2 : ¬ cacheAgeDays now c.fetch_time < 1 := by omega
    simp [fetchUserData, h2]

theorem claim_C1_witness :
    cacheAgeDays 100 0 < 1
    ∧ fetchUserData (.ok (some ⟨[], [], [], 0, ⟨0, 0, []⟩⟩)) [] 100 false
        ⟨true, ⟨[], false⟩, ⟨[], false⟩⟩
      = { ret := .ok (some ⟨[], [], [], 0, ⟨0, 0, []⟩⟩), cacheWrite := none,
          remoteCalled := false } :=
  ⟨by decide,
    (claim_C1_cache_freshness [] 100 ⟨true, ⟨[], false⟩, ⟨[], false⟩⟩
      ⟨[], [], [], 0, ⟨0, 0, []⟩⟩).1 (by decide)⟩

/-- Claim C1 counterexample: `persona.py` reuses a stale cache. The
cached value is 11 days old by the spec's own age measure (`now -
fetched_at` floor-divided by 86400), yet `fetch_user_data` returns it
unchanged, performs no remote call and writes nothing — the stale entry
is not replaced. -/
theorem claim_C1_counterexample :
    1 ≤ cacheAgeDays 1000000 ((⟨[], [], [], 0, ⟨0, 0, []⟩⟩ : Dataset).fetch_time)
    ∧ fetchUserDataPersona (some (⟨[], [], [], 0, ⟨0, 0, []⟩⟩ : Dataset)) false
        (.ok (⟨[], [], [], 1000000, ⟨0, 0, []⟩⟩ : Dataset))
      = { ret := some ⟨[], [], [], 0, ⟨0, 0, []⟩⟩, cacheWrite := none,
          remoteCalled := false } := by
  constructor
  · decide
  · rfl

/-- Claim C2 (amended): the generators of `reddit-analyzer-claude.py`
catch any mid-pagination error and `return` the prefix fetched so far, so
a refreshing `fetch_user_data` call never sees the error: it returns a
dataset built from whatever was yielded — whether or not either listing
broke — and overwrites the existing cache entry with it. The claimed
behaviour (propagate as `DataUnavailable`, leave the stale cache as the
last-good value) does not occur; see the counterexample. -/
theorem claim_C2_partial_data_overwrites (c : Dataset) (username : PyStr)
    (now : Int) (remote : Remote)
    (hstale : 1 ≤ cacheAgeDays now c.fetch_time)
    (huser : remote.userExists = true) :
    fetchUserData (.ok (some c)) username now false remote
      = { ret := .ok (some (buildDataset username now remote.subs.items
            remote.coms.items)),
          cacheWrite := some (buildDataset username now remote.subs.items
            remote.coms.items),
          remoteCalled := true } := by
  have h2 : ¬ cacheAgeDays now c.fetch_time < 1 := by omega
  simp [fetchUserData, h2, fetchFreshData, huser, fetchAllSubmissions,
    fetchAllComments]

theorem claim_C2_witness :
    1 ≤ cacheAgeDays 1000000 ((⟨[], [], [], 0, ⟨0, 0, []⟩⟩ : Dataset).fetch_time)
    ∧ (⟨true, ⟨[⟨"t".data, [], "r".data, 1, ⟨0, 1⟩, ⟨0, 1⟩, [], 0, [], true,
          none, false⟩], true⟩, ⟨[], false⟩⟩ : Remote).userExists = true
    ∧ fetchUserData (.ok (some ⟨[], [], [], 0, ⟨0, 0, []⟩⟩)) "u".data 1000000
        false ⟨true, ⟨[⟨"t".data, [], "r".data, 1, ⟨0, 1⟩, ⟨0, 1⟩, [], 0, [],
          true, none, false⟩], true⟩, ⟨[], false⟩⟩
      = { ret := .ok (some (buildDataset "u".data 1000000
            [⟨"t".data, [], "r".data, 1, ⟨0, 1⟩, ⟨0, 1⟩, [], 0, [], true,
              none, false⟩] [])),
          cacheWrite := some (buildDataset "u".data 1000000
            [⟨"t".data, [], "r".data, 1, ⟨0, 1⟩, ⟨0, 1⟩, [], 0, [], true,
              none, false⟩] []),
          remoteCalled := true } :=
  ⟨by decide, rfl,
    claim_C2_partial_data_overwrites ⟨[], [], [], 0, ⟨0, 0, []⟩⟩ "u".data
      1000000 ⟨true, ⟨[⟨"t".data, [], "r".data, 1, ⟨0, 1⟩, ⟨0, 1⟩, [], 0, [],
        true, none, false⟩], true⟩, ⟨[], false⟩⟩ (by decide) rfl⟩

/-- Claim C2 counterexample: with a stale cache entry and a submissions
listing that breaks mid-pagination (`broken = true`), the refresh
completes as if nothing happened: the return value is a plain `ok` (no
error of any kind is propagated) and the cache entry is overwritten —
it does not keep the last-good value. -/
theorem claim_C2_counterexample :
    (⟨true, ⟨[⟨"t".data, [], "r".data, 1, ⟨0, 1⟩, ⟨0, 1⟩, [], 0, [], true,
        none, false⟩], true⟩, ⟨[], false⟩⟩ : Remote).subs.broken = true
    ∧ (fetchUserData (.ok (some ⟨[], [], [], 0, ⟨0, 0, []⟩⟩)) "u".data 1000000
        false ⟨true, ⟨[⟨"t".data, [], "r".data, 1, ⟨0, 1⟩, ⟨0, 1⟩, [], 0, [],
          true, none, false⟩], true⟩, ⟨[], false⟩⟩).cacheWrite ≠ none
    ∧ ∀ e : PyErr, (fetchUserData (.ok (some ⟨[], [], [], 0, ⟨0, 0, []⟩⟩))
        "u".data 1000000 false ⟨true, ⟨[⟨"t".data, [], "r".data, 1, ⟨0, 1⟩,
          ⟨0, 1⟩, [], 0, [], true, none, false⟩], true⟩,
          ⟨[], false⟩⟩).ret ≠ .error e := by
  refine ⟨rfl, by decide, ?_⟩
  intro e
  cases e
  decide

/-- Claim C3 (amended): in `reddit-analyser-complete-claude.py`,
`extract_post_data` ranks submissions and comments by descending score
(stable), keeps at most `max_items` of each, and truncates `selftext` and
comment bodies to the 500-character budget — but titles, the username,
subreddit names, dates and score renderings are never truncated, so the
output is bounded only once those are: under per-field bounds `B` the
length is at most `250 + 13B + max_items(120 + 7B + 2·budget)`. No bound
in `max_items` and the budget alone exists, and the groq variant neither
sorts nor truncates (see the counterexample). -/
theorem claim_C3_digest_bounded (d : FData) (maxItems B : Nat)
    (hu : d.username.length ≤ B)
    (hts : (natDigs d.statistics.total_submissions).length ≤ B)
    (htc : (natDigs d.statistics.total_comments).length ≤ B)
    (htop : ∀ p ∈ d.statistics.top_subreddits,
      p.1.length ≤ B ∧ (natDigs p.2).length ≤ B)
    (hsub : ∀ s ∈ d.submissions, s.title.length ≤ B ∧ s.subreddit.length ≤ B
      ∧ (intChars s.score).length ≤ B ∧ (formatDate s.created_utc).length ≤ B)
    (hcom : ∀ c ∈ d.comments, c.subreddit.length ≤ B
      ∧ (intChars c.score).length ≤ B ∧ (formatDate c.created_utc).length ≤ B) :
    (extractPostData d maxItems).length
      ≤ 250 + 13 * B + maxItems * (120 + 7 * B + 2 * EXCERPT_BUDGET) :=
  extractPostData_len_bounded d maxItems B hu hts htc htop hsub hcom

theorem claim_C3_witness :
    (titleOnly "hi".data).username.length ≤ 19
    ∧ (natDigs (titleOnly "hi".data).statistics.total_submissions).length ≤ 19
    ∧ (natDigs (titleOnly "hi".data).statistics.total_comments).length ≤ 19
    ∧ (∀ p ∈ (titleOnly "hi".data).statistics.top_subreddits,
        p.1.length ≤ 19 ∧ (natDigs p.2).length ≤ 19)
    ∧ (∀ s ∈ (titleOnly "hi".data).submissions, s.title.length ≤ 19
        ∧ s.subreddit.length ≤ 19 ∧ (intChars s.score).length ≤ 19
        ∧ (formatDate s.created_utc).length ≤ 19)
    ∧ (∀ c ∈ (titleOnly "hi".data).comments, c.subreddit.length ≤ 19
        ∧ (intChars c.score).length ≤ 19
        ∧ (formatDate c.created_utc).length ≤ 19)
    ∧ (extractPostData (titleOnly "hi".data) 25).length
      ≤ 250 + 13 * 19 + 25 * (120 + 7 * 19 + 2 * EXCERPT_BUDGET) :=
  ⟨by decide, by decide, by decide, by decide, by decide, by decide,
    claim_C3_digest_bounded (titleOnly "hi".data) 25 19 (by decide)
      (by decide) (by decide) (by decide) (by decide) (by decide)⟩

/-- Claim C3 counterexample: no function of `max_items` and the truncation
constant alone bounds the digest — a dataset whose single submission has a
long enough title defeats any candidate bound, because titles are rendered
untruncated. And the groq variant does not select by descending score:
two datasets holding the same records in different orders (scores 1 and 5,
no ties) render different digests, while a score-ranked selection would
render both identically. -/
theorem claim_C3_counterexample :
    (¬ ∃ f : Nat → Nat → Nat, ∀ (d : FData) (maxItems : Nat),
        (extractPostData d maxItems).length ≤ f maxItems EXCERPT_BUDGET)
    ∧ extractPostDataGroq groqDemo ≠ extractPostDataGroq groqDemoSorted := by
  constructor
  · rintro ⟨f, hf⟩
    have h1 := hf (titleOnly (List.replicate (f 25 EXCERPT_BUDGET + 1) 'a')) 25
    have h2 := title_le_extract_len (List.replicate (f 25 EXCERPT_BUDGET + 1) 'a')
    rw [List.length_replicate] at h2
    omega
  · decide

/-- Claim C4 (amended): `load_cached_data` calls `json.load` outside any
`try`, so a malformed cache file makes the load raise
`json.JSONDecodeError` instead of returning absent; a subsequent
`fetch_user_data(force=False)` call that hits this error propagates it —
no remote refetch happens and nothing is written. The claimed
treat-as-absent behaviour does not occur; see the counterexample. -/
theorem claim_C4_malformed_cache_raises (text : PyStr)
    (hbad : jloads text = none) (username : PyStr) (now : Int)
    (remote : Remote) :
    loadCachedData (some text) = .error .jsonDecodeError
    ∧ fetchUserData (.error .jsonDecodeError) username now false remote
      = { ret := .error .jsonDecodeError, cacheWrite := none,
          remoteCalled := false } := by
  constructor
  · simp [loadCachedData, hbad]
  · simp [fetchUserData]

theorem claim_C4_witness :
    jloads "not json".data = none
    ∧ (loadCachedData (some "not json".data) = .error .jsonDecodeError
      ∧ fetchUserData (.error .jsonDecodeError) "u".data 0 false
          ⟨true, ⟨[], false⟩, ⟨[], false⟩⟩
        = { ret := .error .jsonDecodeError, cacheWrite := none,
            remoteCalled := false }) :=
  ⟨rfl, claim_C4_malformed_cache_raises "not json".data rfl "u".data 0
    ⟨true, ⟨[], false⟩, ⟨[], false⟩⟩⟩

/-- Claim C4 counterexample: on a malformed cache file the load does not
return absent — it raises — and the fetch that receives the raised error
performs no remote call, so no full refetch is triggered. -/
theorem claim_C4_counterexample :
    loadCachedData (some "not json".data) ≠ .ok none
    ∧ (fetchUserData (.error .jsonDecodeError) "u".data 0 false
        ⟨true, ⟨[], false⟩, ⟨[], false⟩⟩).remoteCalled = false := by
  constructor
  · rw [show loadCachedData (some "not json".data)
        = .error .jsonDecodeError from rfl]
    intro h
    cases h
  · rfl

/-- Claim C5: the claude-variant aggregation counts the merged
submission-and-comment subreddit stream in a Python dict (insertion
order = first appearance), sorts descending by count with Python's stable
sort, and truncates to the top K. Hence the ranked table depends only on
the label multiset and the first-appearance order: two input streams that
are permutations of each other with the same first-appearance sequence
produce the same table, and the table is sorted by descending count. -/
theorem claim_C5_topk_stable (k : Nat) (l₁ l₂ : List PyStr)
    (hperm : List.Perm l₁ l₂)
    (hfirst : firstSeen l₁ = firstSeen l₂) :
    topSubreddits k l₁ = topSubreddits k l₂
    ∧ (topSubreddits k l₁).Pairwise (fun a b => (b.2 : Int) ≤ (a.2 : Int)) := by
  constructor
  · unfold topSubreddits
    rw [countActivity_eq, countActivity_eq, hfirst]
    have hmap : List.map (fun k => (k, List.count k l₁)) (firstSeen l₂)
        = List.map (fun k => (k, List.count k l₂)) (firstSeen l₂) :=
      List.map_congr_left (fun s _ => by rw [perm_count_eq hperm s])
    rw [hmap]
  · exact List.Pairwise.sublist (List.take_sublist _ _)
      (sortDescBy_sorted _ _)

theorem claim_C5_witness :
    List.Perm ["a".data, "b".data, "a".data]
      (["a".data, "a".data, "b".data] : List PyStr)
    ∧ firstSeen ["a".data, "b".data, "a".data]
      = firstSeen ["a".data, "a".data, "b".data]
    ∧ (topSubreddits TOP_K ["a".data, "b".data, "a".data]
        = topSubreddits TOP_K ["a".data, "a".data, "b".data]
      ∧ (topSubreddits TOP_K ["a".data, "b".data, "a".data]).Pairwise
          (fun a b => (b.2 : Int) ≤ (a.2 : Int))) :=
  ⟨by decide, by simp [firstSeen],
    claim_C5_topk_stable TOP_K ["a".data, "b".data, "a".data]
      ["a".data, "a".data, "b".data] (by decide) (by simp [firstSeen])⟩

/-- Claim C6: `save_to_cache` writes `json.dump(data, f, indent=2)` and
`load_cached_data` reads it back with `json.load`; for every dataset
(any record counts, including zero) whose float fields carry at least one
fractional digit — as every Python float rendering does — the loaded
value equals the stored value in all fields: the round-trip law. -/
theorem claim_C6_cache_roundtrip (d : Dataset)
    (hs : ∀ s ∈ d.submissions, 1 ≤ s.upvote_ratio.e ∧ 1 ≤ s.created_utc.e)
    (hc : ∀ c ∈ d.comments, 1 ≤ c.created_utc.e) :
    loadCachedData (some (saveToCacheText d)) = .ok (some (datasetToJson d)) := by
  have h := jloads_jdumps (datasetToJson d) (wfFloats_datasetToJson d hs hc)
  simp [loadCachedData, saveToCacheText, h]

theorem claim_C6_witness :
    (∀ s ∈ ([⟨"t".data, "body".data, "r".data, 3, ⟨9, 1⟩, ⟨17000000005, 1⟩,
        "/p".data, 2, "http".data, true, some "flair".data, false⟩]
        : List SubRec), 1 ≤ s.upvote_ratio.e ∧ 1 ≤ s.created_utc.e)
    ∧ (∀ c ∈ ([⟨"cb".data, "r2".data, -1, ⟨17000000009, 1⟩, "/q".data, false,
        none, "t1_x".data, "t3_y".data⟩] : List ComRec), 1 ≤ c.created_utc.e)
    ∧ loadCachedData (some (saveToCacheText
        ⟨[⟨"t".data, "body".data, "r".data, 3, ⟨9, 1⟩, ⟨17000000005, 1⟩,
            "/p".data, 2, "http".data, true, some "flair".data, false⟩],
          [⟨"cb".data, "r2".data, -1, ⟨17000000009, 1⟩, "/q".data, false,
            none, "t1_x".data, "t3_y".data⟩],
          "u".data, 1700000000, ⟨1, 1, [("r".data, 1), ("r2".data, 1)]⟩⟩))
      = .ok (some (datasetToJson
        ⟨[⟨"t".data, "body".data, "r".data, 3, ⟨9, 1⟩, ⟨17000000005, 1⟩,
            "/p".data, 2, "http".data, true, some "flair".data, false⟩],
          [⟨"cb".data, "r2".data, -1, ⟨17000000009, 1⟩, "/q".data, false,
            none, "t1_x".data, "t3_y".data⟩],
          "u".data, 1700000000, ⟨1, 1, [("r".data, 1), ("r2".data, 1)]⟩⟩)) :=
  ⟨by decide, by decide,
    claim_C6_cache_roundtrip
      ⟨[⟨"t".data, "body".data, "r".data, 3, ⟨9, 1⟩, ⟨17000000005, 1⟩,
          "/p".data, 2, "http".data, true, some "flair".data, false⟩],
        [⟨"cb".data, "r2".data, -1, ⟨17000000009, 1⟩, "/q".data, false,
          none, "t1_x".data, "t3_y".data⟩],
        "u".data, 1700000000, ⟨1, 1, [("r".data, 1), ("r2".data, 1)]⟩⟩
      (by decide) (by decide)⟩

/-- Claim C7: the context window passed to the next prompt is
`chat_history[-3:]`: exactly `min 3 (length history)` turns, and they are
the final turns of the history in their original chronological order
(the rest of the history concatenated with the window re-forms the
history). -/
theorem claim_C7_context_window (history : List Turn) :
    (contextWindow history).length = min 3 history.length
    ∧ history.take (history.length - 3) ++ contextWindow history = history := by
  constructor
  · rw [contextWindow, List.length_drop]
    omega
  · exact List.take_append_drop _ _

/-- Claim C8 (amended): `save_to_cache` opens the cache file with mode
`'w'` — truncating it in place, with no temporary file and no rename — so
a crash after one written character leaves the file holding exactly `{`,
which `json.load` rejects. A concurrent or subsequent reader therefore
can observe a state that is neither the old nor the new complete value;
the write is not atomic. See the counterexample for a concrete partial
state. -/
theorem claim_C8_write_not_atomic (d : Dataset) :
    saveToCachePartial (datasetToJson d) 1 = ['{']
    ∧ loadCachedData (some ['{']) = .error .jsonDecodeError := by
  constructor
  · rw [saveToCachePartial, jdumps, datasetToJson, jdumpVal]
    simp
  · rfl

/-- Claim C8 counterexample: for a concrete dataset, the one-character
partial write differs from the complete serialized text (so a reader can
see a state that is not the new value; the old value was already
truncated away by mode `'w'`), and loading that partial state raises. -/
theorem claim_C8_counterexample :
    saveToCachePartial (datasetToJson ⟨[], [], "u".data, 0, ⟨0, 0, []⟩⟩) 1
      ≠ saveToCacheText ⟨[], [], "u".data, 0, ⟨0, 0, []⟩⟩
    ∧ loadCachedData (some (saveToCachePartial
        (datasetToJson ⟨[], [], "u".data, 0, ⟨0, 0, []⟩⟩) 1))
      = .error .jsonDecodeError := by
  constructor
  · rw [saveToCachePartial, saveToCacheText, jdumps, datasetToJson, jdumpVal]
    simp
  · rw [saveToCachePartial, jdumps, datasetToJson, jdumpVal]
    rfl

/-- Claim C9: the interactive loop of `interactive_analysis` ends only by
an explicit `exit` or by initialization failure: with initialization
successful the session over any input script ends either by explicit exit
or by exhausting the script, and if no input is `exit` — whatever mix of
successful and failing analyse calls the script contains — every input is
consumed and the session is never terminated by a recoverable error. -/
theorem claim_C9_session_survives (history : List Turn)
    (inputs : List SessionInput) :
    ((interactiveAnalysis (.ok ()) history inputs).1 = .explicitExit
      ∨ (interactiveAnalysis (.ok ()) history inputs).1 = .inputsExhausted)
    ∧ ((∀ i ∈ inputs, pyLower i.question ≠ "exit".data) →
      (interactiveAnalysis (.ok ()) history inputs).1 = .inputsExhausted) := by
  constructor
  · rw [interactiveAnalysis]
    exact runSession_ends inputs history
  · intro h
    rw [interactiveAnalysis]
    exact runSession_no_exit inputs history h

theorem claim_C9_witness :
    (∀ i ∈ ([⟨"why".data, "t1".data, .error "boom".data⟩,
        ⟨"again".data, "t2".data, .ok "fine".data⟩] : List SessionInput),
      pyLower i.question ≠ "exit".data)
    ∧ (interactiveAnalysis (.ok ()) []
        [⟨"why".data, "t1".data, .error "boom".data⟩,
          ⟨"again".data, "t2".data, .ok "fine".data⟩]).1 = .inputsExhausted :=
  ⟨by decide,
    (claim_C9_session_survives []
      [⟨"why".data, "t1".data, .error "boom".data⟩,
        ⟨"again".data, "t2".data, .ok "fine".data⟩]).2 (by decide)⟩

/-- Claim C10: every dataset `fetch_user_data` writes to the cache is the
dict built at lines 143-166, whose statistics are internally consistent:
the stored totals equal the lengths of the stored record lists, every
listed top subreddit has a count of at least one, and the listed counts
sum to at most the total activity. -/
theorem claim_C10_dataset_invariant (load : Except PyErr (Option Dataset))
    (username : PyStr) (now : Int) (force : Bool) (remote : Remote)
    (d : Dataset)
    (hw : (fetchUserData load username now force remote).cacheWrite = some d) :
    d.statistics.total_submissions = d.submissions.length
    ∧ d.statistics.total_comments = d.comments.length
    ∧ (∀ p ∈ d.statistics.top_subreddits, 1 ≤ p.2)
    ∧ ((d.statistics.top_subreddits.map (fun p => p.2)).sum
        ≤ d.submissions.length + d.comments.length) := by
  have hbd := cacheWrite_from_build load username now force remote d hw
  subst hbd
  refine ⟨rfl, rfl, ?_, ?_⟩
  · exact topSubreddits_mem_pos _ _
  · have h := topSubreddits_sum_le TOP_K
      (mergedLabels remote.subs.items remote.coms.items)
    rw [mergedLabels_length] at h
    exact h

theorem claim_C10_witness :
    (fetchUserData (.ok none) "u".data 5 false
        ⟨true, ⟨[⟨"t".data, [], "r".data, 1, ⟨9, 1⟩, ⟨0, 1⟩, [], 0, [], true,
          none, false⟩], false⟩,
          ⟨[⟨"c".data, "r".data, 2, ⟨0, 1⟩, [], false, none, [], []⟩],
            false⟩⟩).cacheWrite
      = some (buildDataset "u".data 5
          [⟨"t".data, [], "r".data, 1, ⟨9, 1⟩, ⟨0, 1⟩, [], 0, [], true, none,
            false⟩]
          [⟨"c".data, "r".data, 2, ⟨0, 1⟩, [], false, none, [], []⟩])
    ∧ ((buildDataset "u".data 5
          [⟨"t".data, [], "r".data, 1, ⟨9, 1⟩, ⟨0, 1⟩, [], 0, [], true, none,
            false⟩]
          [⟨"c".data, "r".data, 2, ⟨0, 1⟩, [], false, none, [], []⟩]
        ).statistics.total_submissions
        = (buildDataset "u".data 5
          [⟨"t".data, [], "r".data, 1, ⟨9, 1⟩, ⟨0, 1⟩, [], 0, [], true, none,
            false⟩]
          [⟨"c".data, "r".data, 2, ⟨0, 1⟩, [], false, none, [], []⟩]
        ).submissions.length
      ∧ (buildDataset "u".data 5
          [⟨"t".data, [], "r".data, 1, ⟨9, 1⟩, ⟨0, 1⟩, [], 0, [], true, none,
            false⟩]
          [⟨"c".data, "r".data, 2, ⟨0, 1⟩, [], false, none, [], []⟩]
        ).statistics.total_comments
        = (buildDataset "u".data 5
          [⟨"t".data, [], "r".data, 1, ⟨9, 1⟩, ⟨0, 1⟩, [], 0, [], true, none,
            false⟩]
          [⟨"c".data, "r".data, 2, ⟨0, 1⟩, [], false, none, [], []⟩]
        ).comments.length
      ∧ (∀ p ∈ (buildDataset "u".data 5
          [⟨"t".data, [], "r".data, 1, ⟨9, 1⟩, ⟨0, 1⟩, [], 0, [], true, none,
            false⟩]
          [⟨"c".data, "r".data, 2, ⟨0, 1⟩, [], false, none, [], []⟩]
        ).statistics.top_subreddits, 1 ≤ p.2)
      ∧ (((buildDataset "u".data 5
          [⟨"t".data, [], "r".data, 1, ⟨9, 1⟩, ⟨0, 1⟩, [], 0, [], true, none,
            false⟩]
          [⟨"c".data, "r".data, 2, ⟨0, 1⟩, [], false, none, [], []⟩]
        ).statistics.top_subreddits.map (fun p => p.2)).sum
        ≤ (buildDataset "u".data 5
          [⟨"t".data, [], "r".data, 1, ⟨9, 1⟩, ⟨0, 1⟩, [], 0, [], true, none,
            false⟩]
          [⟨"c".data, "r".data, 2, ⟨0, 1⟩, [], false, none, [], []⟩]
        ).submissions.length
          + (buildDataset "u".data 5
          [⟨"t".data, [], "r".data, 1, ⟨9, 1⟩, ⟨0, 1⟩, [], 0, [], true, none,
            false⟩]
          [⟨"c".data, "r".data, 2, ⟨0, 1⟩, [], false, none, [], []⟩]
        ).comments.length)) :=
  ⟨by decide,
    claim_C10_dataset_invariant (.ok none) "u".data 5 false
      ⟨true, ⟨[⟨"t".data, [], "r".data, 1, ⟨9, 1⟩, ⟨0, 1⟩, [], 0, [], true,
        none, false⟩], false⟩,
        ⟨[⟨"c".data, "r".data, 2, ⟨0, 1⟩, [], false, none, [], []⟩], false⟩⟩
      (buildDataset "u".data 5
        [⟨"t".data, [], "r".data, 1, ⟨9, 1⟩, ⟨0, 1⟩, [], 0, [], true, none,
          false⟩]
        [⟨"c".data, "r".data, 2, ⟨0, 1⟩, [], false, none, [], []⟩])
      (by decide)⟩


end PersonaAnalyser
